import Mathlib

/-!
Verification of the GPS route simplification and activity segmentation core of
the `run-sous-bpm` repository.

The embedding follows `src/backend/core/src/geo/simplification.rs` and
`src/backend/core/src/services/analytics_service.rs`.

Modelling choices:
* Timestamps (`DateTime<Utc>`) are modelled as integers (`ℤ`); only their
  linear order is used by the code.
* GPS coordinates are rationals (`ℚ`).  The `f64` tolerance `epsilon` is
  modelled by `F64`, an inductive covering NaN, the two infinities and finite
  values, because the code's validation distinguishes exactly these cases.
* `perpendicular_distance` mixes trigonometry and square roots over `f64`; the
  RDP driver only consumes it through comparisons, so the driver is
  parametrised by the distance function `dist`.  Every driver theorem holds
  for all `dist`, hence in particular for the floating-point one.  The
  distance formula itself is modelled separately over `ℝ` for claim C4.
* Record fields that no claim and no control-flow decision touches
  (altitude, heart rate, cadence, watts, velocity, distance, temperature,
  activity and track identifiers) are omitted from the corresponding
  structures.
-/

namespace RunSousBpm

/-- Model of the `f64` epsilon argument: NaN, the infinities, or a finite
value (finite values as rationals). -/
inductive F64 where
  | nan : F64
  | inf : F64
  | neginf : F64
  | finite (q : ℚ) : F64
deriving DecidableEq

/-- IEEE semantics of the Rust test `epsilon <= 0.0`: false for NaN and +∞,
true for -∞, and the rational comparison for finite values. -/
def F64.leZero : F64 → Bool
  | .nan => false
  | .inf => false
  | .neginf => true
  | .finite q => decide (q ≤ 0)

/-- IEEE semantics of `epsilon.is_nan()`. -/
def F64.isNan : F64 → Bool
  | .nan => true
  | _ => false

/-- IEEE semantics of the Rust comparison `d > epsilon` where `d` is a finite
value (the model produces distances in `ℚ`) and `epsilon` is an `F64`. -/
def F64.qGt (d : ℚ) : F64 → Bool
  | .nan => false
  | .inf => false
  | .neginf => true
  | .finite q => decide (q < d)

/-- `GpsPoint` from `simplification.rs`: the coordinate pair extracted from a
stream sample. -/
structure GpsPoint where
  lat : ℚ
  lng : ℚ
deriving DecidableEq

/-- `activity_stream::Model` restricted to the fields the verified routines
read: the timestamp and the optional coordinate pair. -/
structure Model where
  time : ℤ
  latitude : Option ℚ
  longitude : Option ℚ
deriving DecidableEq

/-- `SimplificationError` from `simplification.rs`. -/
inductive SimplificationError where
  | InvalidEpsilon (eps : F64) : SimplificationError
  | NoGpsCoordinates : SimplificationError
deriving DecidableEq

/-- Decidable equality of `Except` results, used to evaluate the routines on
concrete inputs. -/
instance exceptDecEq {ε α : Type} [DecidableEq ε] [DecidableEq α] :
    DecidableEq (Except ε α)
  | .ok a, .ok b => decidable_of_iff (a = b) (by simp)
  | .ok _, .error _ => isFalse (by simp)
  | .error _, .ok _ => isFalse (by simp)
  | .error e, .error f => decidable_of_iff (e = f) (by simp)

/-- A sample has valid coordinates when both latitude and longitude are
present (the filter used by `extract_gps_points`). -/
def validCoords (m : Model) : Bool :=
  m.latitude.isSome && m.longitude.isSome

/-- Worker for `extract_gps_points`: Rust's
`points.iter().enumerate().filter_map(...)` with the running original index
made explicit. -/
def extractAux : List Model → ℕ → List (GpsPoint × ℕ)
  | [], _ => []
  | m :: ms, i =>
    match m.latitude, m.longitude with
    | some lat, some lng => (⟨lat, lng⟩, i) :: extractAux ms (i + 1)
    | some _, none => extractAux ms (i + 1)
    | none, some _ => extractAux ms (i + 1)
    | none, none => extractAux ms (i + 1)

/-- `extract_gps_points`: the valid GPS points together with the map from
filtered position back to original index. -/
def extract_gps_points (points : List Model) : List GpsPoint × List ℕ :=
  (extractAux points 0).unzip

/-- Worker for `find_farthest_point`: scans the candidate indices keeping the
running maximum, exactly as the Rust `for` loop (strict `dist > max_dist`, so
the first maximum in scan order wins). -/
def findFarthestAux (dist : GpsPoint → GpsPoint → GpsPoint → ℚ)
    (pts : List GpsPoint) (ls le : GpsPoint) :
    List ℕ → ℕ → ℚ → ℕ × ℚ
  | [], mIdx, mDist => (mIdx, mDist)
  | i :: rest, mIdx, mDist =>
    let d := dist (pts.getD i ⟨0, 0⟩) ls le
    if mDist < d then findFarthestAux dist pts ls le rest i d
    else findFarthestAux dist pts ls le rest mIdx mDist

/-- `find_farthest_point`: the interior index of `(start, end)` whose
perpendicular distance to the chord is maximal, with its distance.  The
Rust iterator `take(end).skip(start + 1)` visits indices
`start+1, …, end-1`, i.e. `List.range' (start+1) (end - start - 1)`. -/
def find_farthest_point (dist : GpsPoint → GpsPoint → GpsPoint → ℚ)
    (pts : List GpsPoint) (s e : ℕ) : ℕ × ℚ :=
  findFarthestAux dist pts (pts.getD s ⟨0, 0⟩) (pts.getD e ⟨0, 0⟩)
    (List.range' (s + 1) (e - s - 1)) s 0

/-- Termination measure for the explicit work list of the iterative RDP:
each range `(s, e)` weighs `3 ^ (e - s)`. -/
def stackMeasure (stack : List (ℕ × ℕ)) : ℕ :=
  (stack.map fun p => 3 ^ (p.2 - p.1)).sum

/-- The work-list loop of `rdp_iterative`.  The guard `s < m ∧ m < e` holds
whenever the Rust code reaches the push (a positive maximal distance implies
the maximum was found strictly inside the range); the `else` arm of the
guard is unreachable on the inputs `simplify_gps_route` produces. -/
def rdpLoop (dist : GpsPoint → GpsPoint → GpsPoint → ℚ)
    (pts : List GpsPoint) (eps : F64)
    (stack : List (ℕ × ℕ)) (keep : List Bool) : List Bool :=
  match stack with
  | [] => keep
  | (s, e) :: rest =>
    if e - s ≤ 1 then rdpLoop dist pts eps rest keep
    else
      if F64.qGt (find_farthest_point dist pts s e).2 eps then
        if h : s < (find_farthest_point dist pts s e).1 ∧
            (find_farthest_point dist pts s e).1 < e then
          rdpLoop dist pts eps
            ((s, (find_farthest_point dist pts s e).1) ::
              ((find_farthest_point dist pts s e).1, e) :: rest)
            (keep.set (find_farthest_point dist pts s e).1 true)
        else rdpLoop dist pts eps rest keep
      else rdpLoop dist pts eps rest keep
termination_by stackMeasure stack
decreasing_by
  all_goals simp only [stackMeasure, List.map_cons, List.sum_cons]
  · have : 1 ≤ 3 ^ (e - s) := Nat.one_le_pow _ _ (by norm_num)
    omega
  · obtain ⟨h1, h2⟩ := h
    have hsum : ((find_farthest_point dist pts s e).1 - s) +
        (e - (find_farthest_point dist pts s e).1) = e - s := by omega
    have h3a : 3 ≤ 3 ^ ((find_farthest_point dist pts s e).1 - s) := by
      calc (3 : ℕ) = 3 ^ 1 := (pow_one 3).symm
      _ ≤ _ := Nat.pow_le_pow_right (by norm_num) (by omega)
    have h3b : 3 ≤ 3 ^ (e - (find_farthest_point dist pts s e).1) := by
      calc (3 : ℕ) = 3 ^ 1 := (pow_one 3).symm
      _ ≤ _ := Nat.pow_le_pow_right (by norm_num) (by omega)
    have hlt : 3 ^ ((find_farthest_point dist pts s e).1 - s) +
        3 ^ (e - (find_farthest_point dist pts s e).1) <
        3 ^ (((find_farthest_point dist pts s e).1 - s) +
          (e - (find_farthest_point dist pts s e).1)) := by
      rw [pow_add]; nlinarith
    rw [hsum] at hlt
    omega
  · have : 1 ≤ 3 ^ (e - s) := Nat.one_le_pow _ _ (by norm_num)
    omega
  · have : 1 ≤ 3 ^ (e - s) := Nat.one_le_pow _ _ (by norm_num)
    omega

/-- `rdp_iterative`: mark the endpoints kept, then process the work list
starting from the full range. -/
def rdp_iterative (dist : GpsPoint → GpsPoint → GpsPoint → ℚ)
    (pts : List GpsPoint) (eps : F64) : List Bool :=
  let n := pts.length
  let keep := ((List.replicate n false).set 0 true).set (n - 1) true
  rdpLoop dist pts eps [(0, n - 1)] keep

/-- Rust's `keep_flags.iter().enumerate().filter_map(...)` step: collect
`index_map[i]` for every position `i` whose keep flag is true. -/
def flagsToIndices (im : List ℕ) : List Bool → ℕ → List ℕ
  | [], _ => []
  | k :: ks, i =>
    if k then im.getD i 0 :: flagsToIndices im ks (i + 1)
    else flagsToIndices im ks (i + 1)

/-- `simplify_gps_route` from `simplification.rs`, parametrised by the
perpendicular-distance function. -/
def simplify_gps_route (dist : GpsPoint → GpsPoint → GpsPoint → ℚ)
    (points : List Model) (epsilon : F64) :
    Except SimplificationError (List ℕ) :=
  if epsilon.leZero || epsilon.isNan then
    .error (.InvalidEpsilon epsilon)
  else
    let ex := extract_gps_points points
    let gps_points := ex.1
    let index_map := ex.2
    if gps_points.length < 2 then .error .NoGpsCoordinates
    else if gps_points.length == 2 then
      .ok [index_map.getD 0 0, index_map.getD 1 0]
    else
      let keep_flags := rdp_iterative dist gps_points epsilon
      .ok (flagsToIndices index_map keep_flags 0)

/-- Proof-layer companion of `flagsToIndices`: keep the elements of `xs`
whose flag is `true`. -/
def selectTrue : List Bool → List ℕ → List ℕ
  | true :: fs, x :: xs => x :: selectTrue fs xs
  | false :: fs, _ :: xs => selectTrue fs xs
  | _, _ => []

/-! ### Analytics service (`analytics_service.rs`) -/

/-- `track::Model` restricted to a representative field; only the presence of
the track matters to the verified routines. -/
structure Track where
  track_name : String
deriving DecidableEq

/-- `listen::Model` restricted to the field the segmentation reads. -/
structure Listen where
  played_at : ℤ
deriving DecidableEq

/-- `Segment` from `analytics_service.rs`. -/
structure Segment where
  index : ℕ
  track : Option Track
  start_time : ℤ
  end_time : ℤ
  points : List Model
deriving DecidableEq

/-- `SimplificationStats` from `analytics_service.rs`; the `f32`
`reduction_ratio` is modelled as an exact rational. -/
structure SimplificationStats where
  total_segments : ℕ
  segments_with_music : ℕ
  segments_without_music : ℕ
  original_points : ℕ
  simplified_points : ℕ
  reduction_ratio : ℚ
deriving DecidableEq

/-- `DEFAULT_SIMPLIFICATION_TOLERANCE_METERS` (10.0). -/
def defaultTolerance : F64 := .finite 10

/-- The per-segment simplification step of `build_activity_segments` (the
Rust code inlines this block three times verbatim):
`if simplify && points.len() >= 2 { points = simplify_gps_route(...)?-selected }`. -/
def applySimplification (dist : GpsPoint → GpsPoint → GpsPoint → ℚ)
    (simplify : Bool) (tolerance : Option F64) (pts : List Model) :
    Except SimplificationError (List Model) :=
  if simplify && decide (2 ≤ pts.length) then
    match simplify_gps_route dist pts (tolerance.getD defaultTolerance) with
    | .error e => .error e
    | .ok idxs => .ok (idxs.map fun i => pts.getD i ⟨0, none, none⟩)
  else .ok pts

/-- The `for (i, (listen, track)) in listens.iter().enumerate()` loop of
`build_activity_segments`: one segment per listen, ending at the next
listen's `played_at` (or the activity end for the last one), with `idx`
tracking `segments.len()` at push time. -/
def musicSegments (dist : GpsPoint → GpsPoint → GpsPoint → ℚ)
    (streams : List Model) (simplify : Bool) (tolerance : Option F64)
    (activity_end : ℤ) :
    List (Listen × Option Track) → ℕ → Except SimplificationError (List Segment)
  | [], _ => .ok []
  | (l, tr) :: rest, idx =>
    let endT : ℤ :=
      match rest with
      | [] => activity_end
      | (l2, _) :: _ => l2.played_at
    let pts := streams.filter fun s =>
      decide (l.played_at ≤ s.time) && decide (s.time < endT)
    match applySimplification dist simplify tolerance pts with
    | .error e => .error e
    | .ok pts2 =>
      match musicSegments dist streams simplify tolerance activity_end
          rest (idx + 1) with
      | .error e => .error e
      | .ok segs => .ok (⟨idx, tr, l.played_at, endT, pts2⟩ :: segs)

/-- `build_activity_segments` from `analytics_service.rs`. -/
def build_activity_segments (dist : GpsPoint → GpsPoint → GpsPoint → ℚ)
    (streams : List Model) (listens : List (Listen × Option Track))
    (activity_start activity_end : ℤ) (simplify : Bool)
    (tolerance : Option F64) : Except SimplificationError (List Segment) :=
  match listens with
  | [] =>
    let all_points := streams.filter fun s =>
      decide (activity_start ≤ s.time) && decide (s.time ≤ activity_end)
    match applySimplification dist simplify tolerance all_points with
    | .error e => .error e
    | .ok pts => .ok [⟨0, none, activity_start, activity_end, pts⟩]
  | (l0, _) :: _ =>
    if activity_start < l0.played_at then
      let pre_music_points := streams.filter fun s =>
        decide (activity_start ≤ s.time) && decide (s.time < l0.played_at)
      match applySimplification dist simplify tolerance pre_music_points with
      | .error e => .error e
      | .ok pts =>
        match musicSegments dist streams simplify tolerance activity_end
            listens 1 with
        | .error e => .error e
        | .ok segs =>
          .ok (⟨0, none, activity_start, l0.played_at, pts⟩ :: segs)
    else
      musicSegments dist streams simplify tolerance activity_end listens 0

/-- The `original_gps_points` computation of `get_activity_music`: samples
with both coordinates present and timestamp inside the closed activity
window. -/
def original_gps_points (streams : List Model)
    (activity_start activity_end : ℤ) : ℕ :=
  (streams.filter fun s =>
    s.latitude.isSome && s.longitude.isSome &&
      decide (activity_start ≤ s.time) && decide (s.time ≤ activity_end)).length

/-- Number of samples in the half-open window `[a, b)`; the shape of every
per-segment filter of `build_activity_segments` except the empty-listens
one. -/
def countIn (streams : List Model) (a b : ℤ) : ℕ :=
  (streams.filter fun s => decide (a ≤ s.time) && decide (s.time < b)).length

/-- `calculate_stats` from `analytics_service.rs`. -/
def calculate_stats (segments : List Segment) (original_points : ℕ) :
    SimplificationStats :=
  let total_segments := segments.length
  let segments_with_music := (segments.filter fun s => s.track.isSome).length
  let segments_without_music := total_segments - segments_with_music
  let simplified_points : ℕ := (segments.map fun s => s.points.length).sum
  let reduction_ratio : ℚ :=
    if 0 < original_points then
      (simplified_points : ℚ) / (original_points : ℚ)
    else 0
  ⟨total_segments, segments_with_music, segments_without_music,
    original_points, simplified_points, reduction_ratio⟩

/-! ### The floating-point distance formulas, over `ℝ` (claim C4) -/

/-- `GpsPoint` over the reals, for the distance formulas. -/
structure GpsPointR where
  lat : ℝ
  lng : ℝ

/-- `METERS_PER_DEGREE_LAT` (111 320 m/°). -/
noncomputable def METERS_PER_DEGREE_LAT : ℝ := 111320

/-- `equirectangular_distance` from `simplification.rs`. -/
noncomputable def equirectangular_distance (p1 p2 : GpsPointR) : ℝ :=
  let avg_lat_rad := ((p1.lat + p2.lat) / 2) * Real.pi / 180
  let meters_per_degree_lng := METERS_PER_DEGREE_LAT * Real.cos avg_lat_rad
  let dx := (p2.lng - p1.lng) * meters_per_degree_lng
  let dy := (p2.lat - p1.lat) * METERS_PER_DEGREE_LAT
  Real.sqrt (dx * dx + dy * dy)

/-- `degrees_to_meters` from `simplification.rs`: the conversion factor is
`sqrt(M² + (M·cos(lat_rad))²)`, written exactly as in the source. -/
noncomputable def degrees_to_meters (degrees latitude : ℝ) : ℝ :=
  let lat_rad := latitude * Real.pi / 180
  let meters_per_degree_avg :=
    Real.sqrt (METERS_PER_DEGREE_LAT * METERS_PER_DEGREE_LAT +
      (METERS_PER_DEGREE_LAT * Real.cos lat_rad) *
        (METERS_PER_DEGREE_LAT * Real.cos lat_rad))
  degrees * meters_per_degree_avg

/-- The 2D cross product of `perpendicular_distance`:
`point_vec.0 * line_vec.1 - point_vec.1 * line_vec.0` with component `.0`
the longitude offset and `.1` the latitude offset. -/
noncomputable def cross_product (point ls le : GpsPointR) : ℝ :=
  (point.lng - ls.lng) * (le.lat - ls.lat) -
    (point.lat - ls.lat) * (le.lng - ls.lng)

/-- The chord length in degrees used by `perpendicular_distance`. -/
noncomputable def line_len_deg (ls le : GpsPointR) : ℝ :=
  Real.sqrt ((le.lng - ls.lng) * (le.lng - ls.lng) +
    (le.lat - ls.lat) * (le.lat - ls.lat))

/-- `perpendicular_distance` from `simplification.rs`. -/
noncomputable def perpendicular_distance (point ls le : GpsPointR) : ℝ :=
  if line_len_deg ls le < 1e-10 then equirectangular_distance point ls
  else
    let dist_deg := |cross_product point ls le| / line_len_deg ls le
    let avg_lat := (ls.lat + le.lat) / 2
    degrees_to_meters dist_deg avg_lat

/-- Modelled from the spec: the claimed conversion of the perpendicular
distance — "longitude degrees are scaled by `cos(average_latitude_in_radians)`
before applying a constant meters-per-degree-latitude factor (111 320 m/°)",
i.e. the degree distance times `cos(avg_lat_rad)` times 111 320. -/
noncomputable def spec_perpendicular_distance (point ls le : GpsPointR) : ℝ :=
  (|cross_product point ls le| / line_len_deg ls le) *
    Real.cos (((ls.lat + le.lat) / 2) * Real.pi / 180) * METERS_PER_DEGREE_LAT

/-- The conversion factor the code actually applies, in closed form:
`111320 · sqrt(1 + cos²(lat_rad))`. -/
noncomputable def actual_meters_factor (latitude : ℝ) : ℝ :=
  METERS_PER_DEGREE_LAT *
    Real.sqrt (1 + Real.cos (latitude * Real.pi / 180) ^ 2)

/-- The perpendicular distance with the amended conversion factor. -/
noncomputable def amended_perpendicular_distance (point ls le : GpsPointR) : ℝ :=
  (|cross_product point ls le| / line_len_deg ls le) *
    actual_meters_factor ((ls.lat + le.lat) / 2)

/-! ### Concrete inputs used by counterexamples and witnesses -/

/-- A degenerate perpendicular-distance function (all distances zero); the
value `perpendicular_distance` takes on exactly collinear points. -/
def distZero : GpsPoint → GpsPoint → GpsPoint → ℚ := fun _ _ _ => 0

/-! ## Properties of the extraction step -/

theorem extractAux_length (ms : List Model) (i : ℕ) :
    (extractAux ms i).length = ms.countP validCoords := by
  induction ms generalizing i with
  | nil => simp [extractAux, List.countP_nil]
  | cons m ms ih =>
    rcases hla : m.latitude with _ | lat <;> rcases hlo : m.longitude with _ | lng <;>
      simp [extractAux, hla, hlo, List.countP_cons, validCoords, ih]

theorem extractAux_snd_ge (ms : List Model) (i : ℕ) :
    ∀ p ∈ extractAux ms i, i ≤ p.2 := by
  induction ms generalizing i with
  | nil => simp [extractAux]
  | cons m ms ih =>
    intro p hp
    rw [extractAux] at hp
    rcases hla : m.latitude with _ | lat <;> rcases hlo : m.longitude with _ | lng <;>
      rw [hla, hlo] at hp
    · exact Nat.le_of_succ_le (ih (i + 1) p hp)
    · exact Nat.le_of_succ_le (ih (i + 1) p hp)
    · exact Nat.le_of_succ_le (ih (i + 1) p hp)
    · rcases List.mem_cons.1 hp with rfl | h
      · exact le_refl _
      · exact Nat.le_of_succ_le (ih (i + 1) p h)

theorem extractAux_snd_pairwise (ms : List Model) (i : ℕ) :
    ((extractAux ms i).map Prod.snd).Pairwise (· < ·) := by
  induction ms generalizing i with
  | nil => simp [extractAux]
  | cons m ms ih =>
    rcases hla : m.latitude with _ | lat <;> rcases hlo : m.longitude with _ | lng <;>
      simp only [extractAux, hla, hlo]
    · exact ih (i + 1)
    · exact ih (i + 1)
    · exact ih (i + 1)
    · rw [List.map_cons, List.pairwise_cons]
      refine ⟨?_, ih (i + 1)⟩
      intro x hx
      rcases List.mem_map.1 hx with ⟨p, hp, hpx⟩
      have := extractAux_snd_ge ms (i + 1) p hp
      omega

/-- The index map is strictly increasing. -/
theorem index_map_pairwise (points : List Model) :
    (extract_gps_points points).2.Pairwise (· < ·) := by
  rw [extract_gps_points, List.unzip_snd]
  exact extractAux_snd_pairwise points 0

theorem index_map_length (points : List Model) :
    (extract_gps_points points).2.length = points.countP validCoords := by
  rw [extract_gps_points, List.unzip_snd, List.length_map]
  exact extractAux_length points 0

theorem gps_points_length (points : List Model) :
    (extract_gps_points points).1.length = points.countP validCoords := by
  rw [extract_gps_points, List.unzip_fst, List.length_map]
  exact extractAux_length points 0

/-! ## Properties of `selectTrue` and `flagsToIndices` -/

theorem selectTrue_sublist : ∀ (fs : List Bool) (xs : List ℕ),
    List.Sublist (selectTrue fs xs) xs
  | [], _ => by
    cases ‹List ℕ› <;> simp [selectTrue]
  | _ :: _, [] => by simp [selectTrue]
  | true :: fs, x :: xs => by
    rw [selectTrue]
    exact (selectTrue_sublist fs xs).cons₂ x
  | false :: fs, x :: xs => by
    rw [selectTrue]
    exact (selectTrue_sublist fs xs).cons x

theorem selectTrue_getD_mem : ∀ (fs : List Bool) (xs : List ℕ) (j d : ℕ),
    fs.getD j false = true → fs.length ≤ xs.length →
    xs.getD j d ∈ selectTrue fs xs
  | [], xs, j, d, hj, _ => by simp at hj
  | f :: fs, [], j, d, hj, hlen => by simp at hlen
  | f :: fs, x :: xs, 0, d, hj, hlen => by
    simp only [List.getD_cons_zero] at hj
    subst hj
    rw [selectTrue]
    simp
  | f :: fs, x :: xs, j + 1, d, hj, hlen => by
    simp only [List.getD_cons_succ] at hj
    have hmem := selectTrue_getD_mem fs xs j d hj (by simpa using hlen)
    cases f
    · show (x :: xs).getD (j + 1) d ∈ selectTrue fs xs
      rw [List.getD_cons_succ]
      exact hmem
    · show (x :: xs).getD (j + 1) d ∈ x :: selectTrue fs xs
      rw [List.getD_cons_succ]
      exact List.mem_cons_of_mem x hmem

theorem flagsToIndices_eq_selectTrue (im : List ℕ) :
    ∀ (fs : List Bool) (i : ℕ), i + fs.length ≤ im.length →
    flagsToIndices im fs i = selectTrue fs (im.drop i)
  | [], i, _ => by
    rw [flagsToIndices]
    cases h : im.drop i <;> simp [selectTrue]
  | k :: ks, i, h => by
    have hi : i < im.length := by simp at h; omega
    have hdrop : im.drop i = im[i] :: im.drop (i + 1) :=
      List.drop_eq_getElem_cons hi
    have hrec := flagsToIndices_eq_selectTrue im ks (i + 1) (by simp at h ⊢; omega)
    have hgetD : im.getD i 0 = im[i] := by
      simp [List.getD_eq_getElem?_getD, List.getElem?_eq_getElem hi]
    rw [flagsToIndices, hdrop]
    cases k
    · rw [if_neg (by simp), hrec]
      rw [selectTrue]
    · rw [if_pos rfl, hrec, hgetD]
      rw [selectTrue]

/-! ## List indexing helpers -/

theorem getD_set_self {α : Type} (l : List α) (i : ℕ) (a d : α)
    (h : i < l.length) : (l.set i a).getD i d = a := by
  rw [List.getD_eq_getElem?_getD, List.getElem?_set_self h]
  rfl

theorem getD_set_ne {α : Type} (l : List α) {i j : ℕ} (a d : α)
    (h : i ≠ j) : (l.set i a).getD j d = l.getD j d := by
  rw [List.getD_eq_getElem?_getD, List.getElem?_set_ne h,
    List.getD_eq_getElem?_getD]

theorem pairwise_getD_lt (l : List ℕ) (hp : l.Pairwise (· < ·))
    {i j : ℕ} (d : ℕ) (hij : i < j) (hj : j < l.length) :
    l.getD i d < l.getD j d := by
  have hi : i < l.length := lt_trans hij hj
  rw [List.getD_eq_getElem?_getD, List.getElem?_eq_getElem hi,
    List.getD_eq_getElem?_getD, List.getElem?_eq_getElem hj]
  exact List.pairwise_iff_getElem.1 hp i j hi hj hij

/-! ## Properties of the RDP work-list loop -/

theorem rdpLoop_length (dist : GpsPoint → GpsPoint → GpsPoint → ℚ)
    (pts : List GpsPoint) (eps : F64) (stack : List (ℕ × ℕ))
    (keep : List Bool) :
    (rdpLoop dist pts eps stack keep).length = keep.length := by
  induction stack, keep using rdpLoop.induct dist pts eps with
  | case1 keep => rw [rdpLoop]
  | case2 keep s e rest h ih => rw [rdpLoop]; simp [h, ih]
  | case3 keep s e rest h hgt hin ih => rw [rdpLoop]; simp [h, hgt, hin, ih]
  | case4 keep s e rest h hgt hin ih => rw [rdpLoop]; simp [h, hgt, hin, ih]
  | case5 keep s e rest h hgt ih => rw [rdpLoop]; simp [h, hgt, ih]

/-- The loop never clears a keep flag. -/
theorem rdpLoop_getD_true (dist : GpsPoint → GpsPoint → GpsPoint → ℚ)
    (pts : List GpsPoint) (eps : F64) (stack : List (ℕ × ℕ))
    (keep : List Bool) (i : ℕ) :
    keep.getD i false = true →
    (rdpLoop dist pts eps stack keep).getD i false = true := by
  induction stack, keep using rdpLoop.induct dist pts eps with
  | case1 keep => intro h; rw [rdpLoop]; exact h
  | case2 keep s e rest hle ih =>
    intro h
    rw [rdpLoop]; simp only [if_pos hle]; exact ih h
  | case3 keep s e rest hle hgt hin ih =>
    intro h
    rw [rdpLoop]
    simp only [if_neg hle, if_pos hgt, dif_pos hin]
    apply ih
    by_cases hi : (find_farthest_point dist pts s e).1 = i
    · subst hi
      by_cases hlen : (find_farthest_point dist pts s e).1 < keep.length
      · exact getD_set_self keep _ true false hlen
      · rw [List.set_eq_of_length_le (by omega)]; exact h
    · rw [getD_set_ne keep true false hi]; exact h
  | case4 keep s e rest hle hgt hin ih =>
    intro h
    rw [rdpLoop]
    simp only [if_neg hle, if_pos hgt, dif_neg hin]
    exact ih h
  | case5 keep s e rest hle hgt ih =>
    intro h
    rw [rdpLoop]
    simp only [if_neg hle, if_neg hgt]
    exact ih h

theorem rdp_iterative_length (dist : GpsPoint → GpsPoint → GpsPoint → ℚ)
    (pts : List GpsPoint) (eps : F64) :
    (rdp_iterative dist pts eps).length = pts.length := by
  rw [rdp_iterative]
  rw [rdpLoop_length]
  simp

theorem rdp_iterative_getD_zero (dist : GpsPoint → GpsPoint → GpsPoint → ℚ)
    (pts : List GpsPoint) (eps : F64) (h : 1 ≤ pts.length) :
    (rdp_iterative dist pts eps).getD 0 false = true := by
  rw [rdp_iterative]
  apply rdpLoop_getD_true
  by_cases h0 : pts.length - 1 = 0
  · rw [h0]
    exact getD_set_self _ 0 true false (by simp; omega)
  · rw [getD_set_ne _ true false (by omega)]
    exact getD_set_self _ 0 true false (by simp; omega)

theorem rdp_iterative_getD_last (dist : GpsPoint → GpsPoint → GpsPoint → ℚ)
    (pts : List GpsPoint) (eps : F64) (h : 1 ≤ pts.length) :
    (rdp_iterative dist pts eps).getD (pts.length - 1) false = true := by
  rw [rdp_iterative]
  apply rdpLoop_getD_true
  exact getD_set_self _ _ true false (by simp; omega)

/-! ## The `rdpLoop` guard is dead code on validated epsilons

`rdpLoop` carries the guard `s < m ∧ m < e` to justify termination; the two
lemmas below show the Rust code always satisfies it when the push branch is
taken: a comparison `d > epsilon` that succeeds against a validated epsilon
forces `d > 0`, and a positive maximal distance means the scan updated the
running maximum, which only happens at interior indices. -/

theorem findFarthestAux_pos_interior
    (dist : GpsPoint → GpsPoint → GpsPoint → ℚ) (pts : List GpsPoint)
    (ls le : GpsPoint) (lo hi : ℕ) :
    ∀ (idxs : List ℕ) (mIdx : ℕ) (mDist : ℚ),
    (∀ i ∈ idxs, lo ≤ i ∧ i ≤ hi) →
    (0 < mDist → lo ≤ mIdx ∧ mIdx ≤ hi) →
    0 < (findFarthestAux dist pts ls le idxs mIdx mDist).2 →
    lo ≤ (findFarthestAux dist pts ls le idxs mIdx mDist).1 ∧
      (findFarthestAux dist pts ls le idxs mIdx mDist).1 ≤ hi := by
  intro idxs
  induction idxs with
  | nil => intro mIdx mDist _ hinv hpos; exact hinv hpos
  | cons i rest ih =>
    intro mIdx mDist hmem hinv hpos
    rw [findFarthestAux] at hpos ⊢
    by_cases hcmp : mDist < dist (pts.getD i ⟨0, 0⟩) ls le
    · rw [if_pos hcmp] at hpos ⊢
      exact ih i _ (fun j hj => hmem j (List.mem_cons_of_mem _ hj))
        (fun _ => hmem i (List.mem_cons_self _ _)) hpos
    · rw [if_neg hcmp] at hpos ⊢
      exact ih mIdx mDist (fun j hj => hmem j (List.mem_cons_of_mem _ hj))
        hinv hpos

theorem find_farthest_point_pos_interior
    (dist : GpsPoint → GpsPoint → GpsPoint → ℚ) (pts : List GpsPoint)
    (s e : ℕ) (hd : 0 < (find_farthest_point dist pts s e).2) :
    s < (find_farthest_point dist pts s e).1 ∧
      (find_farthest_point dist pts s e).1 < e := by
  rw [find_farthest_point] at hd ⊢
  have h := findFarthestAux_pos_interior dist pts
    (pts.getD s ⟨0, 0⟩) (pts.getD e ⟨0, 0⟩) (s + 1) (e - 1)
    (List.range' (s + 1) (e - s - 1)) s 0
    (fun i hi => by
      rw [List.mem_range'] at hi
      omega)
    (fun hcontra => absurd hcontra (lt_irrefl 0)) hd
  omega

/-- Against a validated epsilon (the `leZero`/`isNan` check passed), a
successful `d > epsilon` comparison forces `0 < d`. -/
theorem qGt_valid_pos (d : ℚ) (eps : F64)
    (hval : (eps.leZero || eps.isNan) = false)
    (hgt : F64.qGt d eps = true) : 0 < d := by
  cases eps with
  | nan => exact absurd hgt (by simp [F64.qGt])
  | inf => exact absurd hgt (by simp [F64.qGt])
  | neginf => exact absurd hval (by simp [F64.leZero])
  | finite q =>
    simp only [F64.leZero, F64.isNan, Bool.or_false,
      decide_eq_false_iff_not, not_le] at hval
    simp only [F64.qGt, decide_eq_true_eq] at hgt
    linarith

/-! ## Evaluation lemmas for `simplify_gps_route` -/

theorem simplify_eval_invalid (dist : GpsPoint → GpsPoint → GpsPoint → ℚ)
    (points : List Model) (eps : F64) (h : (eps.leZero || eps.isNan) = true) :
    simplify_gps_route dist points eps = .error (.InvalidEpsilon eps) := by
  rw [simplify_gps_route, if_pos h]

theorem simplify_eval_lt_two (dist : GpsPoint → GpsPoint → GpsPoint → ℚ)
    (points : List Model) (eps : F64) (h : (eps.leZero || eps.isNan) = false)
    (h2 : points.countP validCoords < 2) :
    simplify_gps_route dist points eps = .error .NoGpsCoordinates := by
  rw [simplify_gps_route, if_neg (by simp [h])]
  simp only
  rw [if_pos (by rw [gps_points_length]; exact h2)]

theorem simplify_eval_eq_two (dist : GpsPoint → GpsPoint → GpsPoint → ℚ)
    (points : List Model) (eps : F64) (h : (eps.leZero || eps.isNan) = false)
    (h2 : points.countP validCoords = 2) :
    simplify_gps_route dist points eps =
      .ok [(extract_gps_points points).2.getD 0 0,
           (extract_gps_points points).2.getD 1 0] := by
  rw [simplify_gps_route, if_neg (by simp [h])]
  simp only
  rw [if_neg (by rw [gps_points_length]; omega)]
  rw [if_pos (by rw [beq_iff_eq, gps_points_length]; exact h2)]

theorem simplify_eval_ge_three (dist : GpsPoint → GpsPoint → GpsPoint → ℚ)
    (points : List Model) (eps : F64) (h : (eps.leZero || eps.isNan) = false)
    (h3 : 3 ≤ points.countP validCoords) :
    simplify_gps_route dist points eps =
      .ok (selectTrue (rdp_iterative dist (extract_gps_points points).1 eps)
        (extract_gps_points points).2) := by
  rw [simplify_gps_route, if_neg (by simp [h])]
  simp only
  rw [if_neg (by rw [gps_points_length]; omega)]
  rw [if_neg (by rw [beq_iff_eq, gps_points_length]; omega)]
  rw [flagsToIndices_eq_selectTrue]
  · rw [List.drop_zero]
  · rw [Nat.zero_add, rdp_iterative_length, gps_points_length,
      index_map_length]

theorem finite_pos_valid (q : ℚ) (hq : 0 < q) :
    ((F64.finite q).leZero || (F64.finite q).isNan) = false := by
  simp only [F64.leZero, F64.isNan, Bool.or_false, decide_eq_false_iff_not,
    not_le]
  exact hq

/-! ## Claim theorems for the simplification routine -/

/-- C1: with a finite positive epsilon and at least two valid-coordinate
samples, `simplify_gps_route` succeeds; the returned index list is strictly
ascending, contains the original indices of the first and of the last
valid-coordinate samples, and equals exactly those two indices when exactly
two samples have coordinates. -/
theorem C1_simplify_sorted_endpoints
    (dist : GpsPoint → GpsPoint → GpsPoint → ℚ) (points : List Model)
    (q : ℚ) (hq : 0 < q) (h2 : 2 ≤ points.countP validCoords) :
    ∃ idxs, simplify_gps_route dist points (.finite q) = .ok idxs ∧
      idxs.Pairwise (· < ·) ∧
      (extract_gps_points points).2.getD 0 0 ∈ idxs ∧
      (extract_gps_points points).2.getD
        ((extract_gps_points points).2.length - 1) 0 ∈ idxs ∧
      (points.countP validCoords = 2 →
        idxs = [(extract_gps_points points).2.getD 0 0,
                (extract_gps_points points).2.getD 1 0]) := by
  have hval := finite_pos_valid q hq
  have him := index_map_length points
  have hpw := index_map_pairwise points
  rcases eq_or_lt_of_le h2 with h2eq | h3
  · -- exactly two valid samples: the early-return branch
    refine ⟨_, simplify_eval_eq_two dist points _ hval h2eq.symm, ?_, ?_, ?_, ?_⟩
    · refine List.pairwise_cons.2 ⟨?_, by simp⟩
      intro x hx
      rw [List.mem_singleton] at hx
      subst hx
      exact pairwise_getD_lt _ hpw 0 (by omega) (by omega)
    · simp
    · rw [him, ← h2eq]
      simp
    · intro _
      rfl
  · -- at least three valid samples: the RDP branch
    have h3' : 3 ≤ points.countP validCoords := h3
    have hflags : (rdp_iterative dist (extract_gps_points points).1
        (.finite q)).length = (extract_gps_points points).2.length := by
      rw [rdp_iterative_length, gps_points_length, index_map_length]
    refine ⟨_, simplify_eval_ge_three dist points _ hval h3', ?_, ?_, ?_, ?_⟩
    · exact List.Pairwise.sublist (selectTrue_sublist _ _) hpw
    · apply selectTrue_getD_mem
      · rw [rdp_iterative_getD_zero]
        rw [gps_points_length]; omega
      · omega
    · have hlast : (extract_gps_points points).2.length - 1 =
          (extract_gps_points points).1.length - 1 := by
        rw [gps_points_length, index_map_length]
      rw [hlast]
      apply selectTrue_getD_mem
      · rw [rdp_iterative_getD_last]
        rw [gps_points_length]; omega
      · omega
    · intro hcontra
      omega

/-- Witness for C1 at a concrete input: two valid samples, epsilon 10. -/
theorem C1_simplify_sorted_endpoints_witness :
    (0 < (10 : ℚ)) ∧
    2 ≤ ([⟨0, some 0, some 0⟩, ⟨1, some 1, some 1⟩] :
      List Model).countP validCoords ∧
    ∃ idxs, simplify_gps_route distZero
        [⟨0, some 0, some 0⟩, ⟨1, some 1, some 1⟩] (.finite 10) = .ok idxs ∧
      idxs.Pairwise (· < ·) ∧
      (extract_gps_points [⟨0, some 0, some 0⟩,
        ⟨1, some 1, some 1⟩]).2.getD 0 0 ∈ idxs ∧
      (extract_gps_points [⟨0, some 0, some 0⟩, ⟨1, some 1, some 1⟩]).2.getD
        ((extract_gps_points [⟨0, some 0, some 0⟩,
          ⟨1, some 1, some 1⟩]).2.length - 1) 0 ∈ idxs ∧
      (([⟨0, some 0, some 0⟩, ⟨1, some 1, some 1⟩] :
          List Model).countP validCoords = 2 →
        idxs = [(extract_gps_points [⟨0, some 0, some 0⟩,
            ⟨1, some 1, some 1⟩]).2.getD 0 0,
          (extract_gps_points [⟨0, some 0, some 0⟩,
            ⟨1, some 1, some 1⟩]).2.getD 1 0]) :=
  ⟨by decide, by decide,
    C1_simplify_sorted_endpoints distZero _ 10 (by decide) (by decide)⟩

/-- C3: with a finite positive epsilon, `simplify_gps_route` fails with
`NoGpsCoordinates` exactly when fewer than two samples have both
coordinates. -/
theorem C3_no_gps_iff (dist : GpsPoint → GpsPoint → GpsPoint → ℚ)
    (points : List Model) (q : ℚ) (hq : 0 < q) :
    simplify_gps_route dist points (.finite q) = .error .NoGpsCoordinates ↔
      points.countP validCoords < 2 := by
  have hval := finite_pos_valid q hq
  constructor
  · intro h
    by_contra hge
    push_neg at hge
    rcases eq_or_lt_of_le hge with h2eq | h3
    · rw [simplify_eval_eq_two dist points _ hval h2eq.symm] at h
      exact Except.noConfusion h
    · rw [simplify_eval_ge_three dist points _ hval h3] at h
      exact Except.noConfusion h
  · intro h
    exact simplify_eval_lt_two dist points _ hval h

/-- Witness for C3 at a concrete input: the empty stream. -/
theorem C3_no_gps_iff_witness :
    (0 < (1 : ℚ)) ∧
    (simplify_gps_route distZero [] (.finite 1) = .error .NoGpsCoordinates ↔
      ([] : List Model).countP validCoords < 2) :=
  ⟨by decide, C3_no_gps_iff distZero [] 1 (by decide)⟩

/-- C2 counterexample: the claim says a non-finite epsilon such as +∞ is
rejected with `InvalidEpsilon`, but the code's validation
`epsilon <= 0.0 || epsilon.is_nan()` accepts +∞: on two valid points the
call succeeds. -/
theorem C2_counterexample :
    simplify_gps_route distZero
      [⟨0, some 0, some 0⟩, ⟨1, some 1, some 1⟩] F64.inf = .ok [0, 1] ∧
    (Except.ok [0, 1] : Except SimplificationError (List ℕ)) ≠
      .error (.InvalidEpsilon F64.inf) := by
  refine ⟨?_, by intro h; exact Except.noConfusion h⟩
  rfl

/-- C2 amended: `simplify_gps_route` returns `InvalidEpsilon` iff the
epsilon is NaN, -∞, or a finite value ≤ 0; +∞ passes validation. -/
theorem C2_amended_invalid_epsilon_iff
    (dist : GpsPoint → GpsPoint → GpsPoint → ℚ) (points : List Model)
    (eps : F64) :
    simplify_gps_route dist points eps = .error (.InvalidEpsilon eps) ↔
      (eps = .nan ∨ eps = .neginf ∨ ∃ q, eps = .finite q ∧ q ≤ 0) := by
  constructor
  · intro h
    by_contra hnot
    push_neg at hnot
    obtain ⟨hn, hng, hf⟩ := hnot
    have hval : (eps.leZero || eps.isNan) = false := by
      cases eps with
      | nan => exact absurd rfl hn
      | inf => rfl
      | neginf => exact absurd rfl hng
      | finite q =>
        have := hf q rfl
        simp only [F64.leZero, F64.isNan, Bool.or_false,
          decide_eq_false_iff_not]
        exact not_le.2 this
    rcases Nat.lt_or_ge (points.countP validCoords) 2 with h2 | h2
    · rw [simplify_eval_lt_two dist points eps hval h2] at h
      rw [Except.error.injEq] at h
      exact SimplificationError.noConfusion h
    · rcases eq_or_lt_of_le h2 with h2eq | h3
      · rw [simplify_eval_eq_two dist points eps hval h2eq.symm] at h
        exact Except.noConfusion h
      · rw [simplify_eval_ge_three dist points eps hval h3] at h
        exact Except.noConfusion h
  · intro h
    apply simplify_eval_invalid
    rcases h with h | h | ⟨q, rfl, hq⟩
    · subst h; rfl
    · subst h; rfl
    · simp [F64.leZero, hq]

/-! ## Bounds on the indices returned by `simplify_gps_route` -/

theorem extractAux_snd_lt (ms : List Model) (i : ℕ) :
    ∀ p ∈ extractAux ms i, p.2 < i + ms.length := by
  induction ms generalizing i with
  | nil => simp [extractAux]
  | cons m ms ih =>
    intro p hp
    rw [extractAux] at hp
    rcases hla : m.latitude with _ | lat <;> rcases hlo : m.longitude with _ | lng <;>
      rw [hla, hlo] at hp
    · have := ih (i + 1) p hp; simp only [List.length_cons]; omega
    · have := ih (i + 1) p hp; simp only [List.length_cons]; omega
    · have := ih (i + 1) p hp; simp only [List.length_cons]; omega
    · rcases List.mem_cons.1 hp with rfl | h
      · simp only [List.length_cons]; omega
      · have := ih (i + 1) p h; simp only [List.length_cons]; omega

theorem index_map_mem_lt (points : List Model) :
    ∀ j ∈ (extract_gps_points points).2, j < points.length := by
  intro j hj
  rw [extract_gps_points, List.unzip_snd] at hj
  rcases List.mem_map.1 hj with ⟨p, hp, rfl⟩
  have := extractAux_snd_lt points 0 p hp
  omega

theorem index_map_getD_mem (points : List Model) (k : ℕ)
    (hk : k < (extract_gps_points points).2.length) :
    (extract_gps_points points).2.getD k 0 ∈ (extract_gps_points points).2 := by
  rw [List.getD_eq_getElem?_getD, List.getElem?_eq_getElem hk]
  exact List.getElem_mem hk

theorem simplify_ok_mem_lt (dist : GpsPoint → GpsPoint → GpsPoint → ℚ)
    (points : List Model) (eps : F64) (idxs : List ℕ)
    (h : simplify_gps_route dist points eps = .ok idxs) :
    ∀ i ∈ idxs, i < points.length := by
  by_cases hval : (eps.leZero || eps.isNan) = true
  · rw [simplify_eval_invalid dist points eps hval] at h
    exact Except.noConfusion h
  · have hval' : (eps.leZero || eps.isNan) = false :=
      Bool.not_eq_true _ ▸ Bool.of_not_eq_true hval
    rcases Nat.lt_or_ge (points.countP validCoords) 2 with h2 | h2
    · rw [simplify_eval_lt_two dist points eps hval' h2] at h
      exact Except.noConfusion h
    · rcases eq_or_lt_of_le h2 with h2eq | h3
      · rw [simplify_eval_eq_two dist points eps hval' h2eq.symm] at h
        rw [Except.ok.injEq] at h
        subst h
        intro i hi
        have hlen : (extract_gps_points points).2.length = 2 := by
          rw [index_map_length]; omega
        rcases List.mem_cons.1 hi with rfl | hi
        · exact index_map_mem_lt points _
            (index_map_getD_mem points 0 (by omega))
        · rcases List.mem_singleton.1 hi with rfl
          exact index_map_mem_lt points _
            (index_map_getD_mem points 1 (by omega))
      · rw [simplify_eval_ge_three dist points eps hval' h3] at h
        rw [Except.ok.injEq] at h
        subst h
        intro i hi
        exact index_map_mem_lt points i ((selectTrue_sublist _ _).subset hi)

theorem simplify_ok_length_le (dist : GpsPoint → GpsPoint → GpsPoint → ℚ)
    (points : List Model) (eps : F64) (idxs : List ℕ)
    (h : simplify_gps_route dist points eps = .ok idxs) :
    idxs.length ≤ points.countP validCoords := by
  by_cases hval : (eps.leZero || eps.isNan) = true
  · rw [simplify_eval_invalid dist points eps hval] at h
    exact Except.noConfusion h
  · have hval' : (eps.leZero || eps.isNan) = false :=
      Bool.not_eq_true _ ▸ Bool.of_not_eq_true hval
    rcases Nat.lt_or_ge (points.countP validCoords) 2 with h2 | h2
    · rw [simplify_eval_lt_two dist points eps hval' h2] at h
      exact Except.noConfusion h
    · rcases eq_or_lt_of_le h2 with h2eq | h3
      · rw [simplify_eval_eq_two dist points eps hval' h2eq.symm] at h
        rw [Except.ok.injEq] at h
        subst h
        simp only [List.length_cons, List.length_nil]
        omega
      · rw [simplify_eval_ge_three dist points eps hval' h3] at h
        rw [Except.ok.injEq] at h
        subst h
        calc (selectTrue _ _).length ≤ (extract_gps_points points).2.length :=
            (selectTrue_sublist _ _).length_le
        _ = points.countP validCoords := index_map_length points

/-! ## Properties of the per-segment simplification step -/

theorem applySimplification_not_simplify
    (dist : GpsPoint → GpsPoint → GpsPoint → ℚ) (tol : Option F64)
    (pts : List Model) :
    applySimplification dist false tol pts = .ok pts := by
  rw [applySimplification]
  simp

theorem applySimplification_ok_length
    (dist : GpsPoint → GpsPoint → GpsPoint → ℚ) (simplify : Bool)
    (tol : Option F64) (pts pts2 : List Model)
    (h : applySimplification dist simplify tol pts = .ok pts2) :
    pts2.length ≤ pts.length := by
  rw [applySimplification] at h
  by_cases hc : (simplify && decide (2 ≤ pts.length)) = true
  · rw [if_pos hc] at h
    cases hs : simplify_gps_route dist pts (tol.getD defaultTolerance) with
    | error e => rw [hs] at h; exact Except.noConfusion h
    | ok idxs =>
      rw [hs] at h
      rw [Except.ok.injEq] at h
      subst h
      rw [List.length_map]
      calc idxs.length ≤ pts.countP validCoords :=
          simplify_ok_length_le dist pts _ idxs hs
      _ ≤ pts.length := List.countP_le_length _

  · rw [if_neg hc] at h
    rw [Except.ok.injEq] at h
    subst h
    exact le_refl _

theorem applySimplification_ok_mem
    (dist : GpsPoint → GpsPoint → GpsPoint → ℚ) (simplify : Bool)
    (tol : Option F64) (pts pts2 : List Model)
    (h : applySimplification dist simplify tol pts = .ok pts2) :
    ∀ p ∈ pts2, p ∈ pts := by
  rw [applySimplification] at h
  by_cases hc : (simplify && decide (2 ≤ pts.length)) = true
  · rw [if_pos hc] at h
    cases hs : simplify_gps_route dist pts (tol.getD defaultTolerance) with
    | error e => rw [hs] at h; exact Except.noConfusion h
    | ok idxs =>
      rw [hs] at h
      rw [Except.ok.injEq] at h
      subst h
      intro p hp
      rcases List.mem_map.1 hp with ⟨i, hi, rfl⟩
      have hilt : i < pts.length := simplify_ok_mem_lt dist pts _ idxs hs i hi
      rw [List.getD_eq_getElem?_getD, List.getElem?_eq_getElem hilt]
      exact List.getElem_mem hilt
  · rw [if_neg hc] at h
    rw [Except.ok.injEq] at h
    subst h
    exact fun p hp => hp

/-! ## Structure of the segment list built by `musicSegments` -/

theorem forall₂_exists_left {α β : Type} {R : α → β → Prop} :
    ∀ {as : List α} {bs : List β}, List.Forall₂ R as bs →
    ∀ b ∈ bs, ∃ a ∈ as, R a b := by
  intro as bs h
  induction h with
  | nil => simp
  | cons hR hrest ih =>
    intro b hb
    rcases List.mem_cons.1 hb with rfl | hb
    · exact ⟨_, List.mem_cons_self _ _, hR⟩
    · rcases ih b hb with ⟨a, ha, hr⟩
      exact ⟨a, List.mem_cons_of_mem _ ha, hr⟩

theorem getLast?_cons_of_ne_nil {α : Type} (a : α) (l : List α) (h : l ≠ []) :
    (a :: l).getLast? = l.getLast? := by
  cases l with
  | nil => exact absurd rfl h
  | cons b t => exact List.getLast?_cons_cons

/-- Everything the claims need about the listen-driven segment loop: one
segment per listen, consecutive indices from `k`, start time and track taken
from the listen, and the last segment ending at the activity end. -/
theorem musicSegments_spec (dist : GpsPoint → GpsPoint → GpsPoint → ℚ)
    (streams : List Model) (simplify : Bool) (tol : Option F64) (aend : ℤ) :
    ∀ (listens : List (Listen × Option Track)) (k : ℕ) (segs : List Segment),
      musicSegments dist streams simplify tol aend listens k = .ok segs →
      segs.length = listens.length ∧
      segs.map Segment.index = List.range' k listens.length ∧
      List.Forall₂ (fun (seg : Segment) (pr : Listen × Option Track) =>
        seg.start_time = pr.1.played_at ∧ seg.track = pr.2) segs listens ∧
      (∀ sl, segs.getLast? = some sl → sl.end_time = aend) := by
  intro listens
  induction listens with
  | nil =>
    intro k segs h
    rw [musicSegments] at h
    rw [Except.ok.injEq] at h
    subst h
    refine ⟨rfl, rfl, List.Forall₂.nil, ?_⟩
    intro sl hsl
    exact Option.noConfusion hsl
  | cons pr rest ih =>
    obtain ⟨l, tr⟩ := pr
    intro k segs h
    simp only [musicSegments] at h
    split at h
    · exact absurd h (by simp)
    next pts2 happ =>
      split at h
      · exact absurd h (by simp)
      next segs' hrec =>
        rw [Except.ok.injEq] at h
        subst h
        obtain ⟨hlen, hmap, hfa, hlast⟩ := ih (k + 1) segs' hrec
        refine ⟨by simp [hlen], ?_, ?_, ?_⟩
        · simp only [List.map_cons, List.length_cons, List.range'_succ, hmap]
        · exact List.Forall₂.cons ⟨rfl, rfl⟩ hfa
        · intro sl hsl
          cases rest with
          | nil =>
            rw [musicSegments] at hrec
            rw [Except.ok.injEq] at hrec
            subst hrec
            rw [List.getLast?_singleton] at hsl
            rw [Option.some.injEq] at hsl
            subst hsl
            rfl
          | cons pr2 rest2 =>
            have hne : segs' ≠ [] := by
              intro hnil
              rw [hnil] at hlen
              simp at hlen
            rw [getLast?_cons_of_ne_nil _ _ hne] at hsl
            exact hlast sl hsl

/-- Inversion for `build_activity_segments`: the three ways a segment list
is produced (no listens; a leading no-music segment; no leading segment). -/
theorem build_cases (dist : GpsPoint → GpsPoint → GpsPoint → ℚ)
    (streams : List Model) (listens : List (Listen × Option Track))
    (astart aend : ℤ) (simplify : Bool) (tol : Option F64)
    (segs : List Segment)
    (h : build_activity_segments dist streams listens astart aend simplify tol
      = .ok segs) :
    (listens = [] ∧ ∃ pts,
      applySimplification dist simplify tol (streams.filter fun s =>
        decide (astart ≤ s.time) && decide (s.time ≤ aend)) = .ok pts ∧
      segs = [⟨0, none, astart, aend, pts⟩]) ∨
    (∃ l0 t0 rest, listens = (l0, t0) :: rest ∧ astart < l0.played_at ∧
      ∃ pts segs',
        applySimplification dist simplify tol (streams.filter fun s =>
          decide (astart ≤ s.time) && decide (s.time < l0.played_at)) =
            .ok pts ∧
        musicSegments dist streams simplify tol aend ((l0, t0) :: rest) 1 =
          .ok segs' ∧
        segs = ⟨0, none, astart, l0.played_at, pts⟩ :: segs') ∨
    (∃ l0 t0 rest, listens = (l0, t0) :: rest ∧ ¬ astart < l0.played_at ∧
      musicSegments dist streams simplify tol aend ((l0, t0) :: rest) 0 =
        .ok segs) := by
  cases listens with
  | nil =>
    left
    simp only [build_activity_segments] at h
    split at h
    · exact absurd h (by simp)
    next pts happ =>
      rw [Except.ok.injEq] at h
      exact ⟨rfl, pts, happ, h.symm⟩
  | cons pr rest =>
    obtain ⟨l0, t0⟩ := pr
    right
    simp only [build_activity_segments] at h
    split at h
    next hlt =>
      left
      split at h
      · exact absurd h (by simp)
      next pts happ =>
        split at h
        · exact absurd h (by simp)
        next segs' hmus =>
          rw [Except.ok.injEq] at h
          exact ⟨l0, t0, rest, rfl, hlt, pts, segs', happ, hmus, h.symm⟩
    next hlt =>
      right
      exact ⟨l0, t0, rest, rfl, hlt, h⟩

/-- Forward evaluation of the leading-segment branch. -/
theorem build_eval_leading (dist : GpsPoint → GpsPoint → GpsPoint → ℚ)
    (streams : List Model) (l0 : Listen) (t0 : Option Track)
    (rest : List (Listen × Option Track)) (astart aend : ℤ)
    (simplify : Bool) (tol : Option F64) (pts : List Model)
    (segs' : List Segment)
    (hlt : astart < l0.played_at)
    (happ : applySimplification dist simplify tol (streams.filter fun s =>
      decide (astart ≤ s.time) && decide (s.time < l0.played_at)) = .ok pts)
    (hmus : musicSegments dist streams simplify tol aend ((l0, t0) :: rest) 1
      = .ok segs') :
    build_activity_segments dist streams ((l0, t0) :: rest) astart aend
      simplify tol =
      .ok (⟨0, none, astart, l0.played_at, pts⟩ :: segs') := by
  simp only [build_activity_segments]
  rw [if_pos hlt, happ, hmus]

theorem getLast?_exists {α : Type} : ∀ (l : List α), l ≠ [] →
    ∃ x, l.getLast? = some x
  | [], h => absurd rfl h
  | [a], _ => ⟨a, rfl⟩
  | a :: b :: t, _ => by
    rw [List.getLast?_cons_cons]
    exact getLast?_exists (b :: t) (by simp)

/-! ## Claim theorems for segmentation structure (C5, C10, C9) -/

/-- C5: on a successful build with listens sorted ascending and inside the
activity window, segment indices are exactly `0, 1, 2, …` in output order,
the first segment starts at the activity start and the last segment ends at
the activity end. -/
theorem C5_indices_and_boundaries (dist : GpsPoint → GpsPoint → GpsPoint → ℚ)
    (streams : List Model) (listens : List (Listen × Option Track))
    (astart aend : ℤ) (simplify : Bool) (tol : Option F64)
    (segs : List Segment)
    (hsorted : List.Chain' (fun a b : Listen × Option Track =>
      a.1.played_at ≤ b.1.played_at) listens)
    (hwin : ∀ pr ∈ listens,
      astart ≤ pr.1.played_at ∧ pr.1.played_at ≤ aend)
    (h : build_activity_segments dist streams listens astart aend simplify tol
      = .ok segs) :
    segs.map Segment.index = List.range segs.length ∧
    (∃ s0, segs.head? = some s0 ∧ s0.start_time = astart) ∧
    (∃ sl, segs.getLast? = some sl ∧ sl.end_time = aend) := by
  rcases build_cases dist streams listens astart aend simplify tol segs h with
    ⟨hnil, pts, happ, rfl⟩ |
    ⟨l0, t0, rest, hl, hlt, pts, segs', happ, hmus, rfl⟩ |
    ⟨l0, t0, rest, hl, hlt, hmus⟩
  · exact ⟨by simp [List.range_succ], ⟨_, rfl, rfl⟩, ⟨_, rfl, rfl⟩⟩
  · obtain ⟨hlen, hmap, hfa, hlast⟩ :=
      musicSegments_spec dist streams simplify tol aend _ 1 segs' hmus
    have hlen' : segs'.length = rest.length + 1 := by
      rw [hlen]; rfl
    refine ⟨?_, ⟨_, rfl, rfl⟩, ?_⟩
    · simp only [List.map_cons, List.length_cons, List.range_eq_range',
        List.range'_succ, hmap, hlen]
    · have hne : segs' ≠ [] := by
        intro hnil
        rw [hnil] at hlen'
        exact absurd hlen' (by simp)
      obtain ⟨sl, hsl⟩ := getLast?_exists segs' hne
      exact ⟨sl, by rw [getLast?_cons_of_ne_nil _ _ hne]; exact hsl,
        hlast sl hsl⟩
  · subst hl
    obtain ⟨hlen, hmap, hfa, hlast⟩ :=
      musicSegments_spec dist streams simplify tol aend _ 0 segs hmus
    have hne : segs ≠ [] := by
      intro hnil
      rw [hnil] at hlen
      exact absurd hlen.symm (by simp)
    refine ⟨?_, ?_, ?_⟩
    · rw [List.range_eq_range', hlen, hmap]
    · cases segs with
      | nil => exact absurd rfl hne
      | cons s0 t =>
        have hR := (List.forall₂_cons.1 hfa).1
        have hle : astart ≤ l0.played_at :=
          (hwin (l0, t0) (List.mem_cons_self _ _)).1
        refine ⟨s0, rfl, ?_⟩
        rw [hR.1]
        show l0.played_at = astart
        omega
    · obtain ⟨sl, hsl⟩ := getLast?_exists segs hne
      exact ⟨sl, hsl, hlast sl hsl⟩

/-- Witness for C5 at a concrete input: one listen strictly inside the
activity window, no simplification. -/
theorem C5_indices_and_boundaries_witness :
    build_activity_segments distZero [] [(⟨3⟩, some ⟨"A"⟩)] 0 10 false none =
      .ok [⟨0, none, 0, 3, []⟩, ⟨1, some ⟨"A"⟩, 3, 10, []⟩] ∧
    ([⟨0, none, 0, 3, []⟩, ⟨1, some ⟨"A"⟩, 3, 10, []⟩] :
        List Segment).map Segment.index =
      List.range ([⟨0, none, 0, 3, []⟩,
        ⟨1, some ⟨"A"⟩, 3, 10, []⟩] : List Segment).length ∧
    (∃ s0, ([⟨0, none, 0, 3, []⟩, ⟨1, some ⟨"A"⟩, 3, 10, []⟩] :
        List Segment).head? = some s0 ∧ s0.start_time = 0) ∧
    (∃ sl, ([⟨0, none, 0, 3, []⟩, ⟨1, some ⟨"A"⟩, 3, 10, []⟩] :
        List Segment).getLast? = some sl ∧ sl.end_time = 10) :=
  ⟨by decide,
    C5_indices_and_boundaries distZero [] [(⟨3⟩, some ⟨"A"⟩)] 0 10 false none
      _ (by simp) (by decide) (by decide)⟩

/-- C10: a successful build returns a non-empty list; its length is 1 with no
listens, `listens.length + 1` when the first listen starts strictly after the
activity start, and `listens.length` otherwise. -/
theorem C10_segment_count (dist : GpsPoint → GpsPoint → GpsPoint → ℚ)
    (streams : List Model) (listens : List (Listen × Option Track))
    (astart aend : ℤ) (simplify : Bool) (tol : Option F64)
    (segs : List Segment)
    (h : build_activity_segments dist streams listens astart aend simplify tol
      = .ok segs) :
    segs ≠ [] ∧
    (listens = [] → segs.length = 1) ∧
    (∀ l0 t0 rest, listens = (l0, t0) :: rest →
      ((astart < l0.played_at → segs.length = listens.length + 1) ∧
       (¬ astart < l0.played_at → segs.length = listens.length))) := by
  rcases build_cases dist streams listens astart aend simplify tol segs h with
    ⟨hnil, pts, happ, rfl⟩ |
    ⟨l0, t0, rest, hl, hlt, pts, segs', happ, hmus, rfl⟩ |
    ⟨l0, t0, rest, hl, hlt, hmus⟩
  · subst hnil
    refine ⟨by simp, fun _ => rfl, ?_⟩
    intro l0 t0 rest hcontra
    exact List.noConfusion hcontra
  · subst hl
    obtain ⟨hlen, -, -, -⟩ :=
      musicSegments_spec dist streams simplify tol aend _ 1 segs' hmus
    refine ⟨by simp, fun hcontra => List.noConfusion hcontra, ?_⟩
    intro l0' t0' rest' heq
    obtain ⟨heq1, heq2⟩ := List.cons.inj heq
    obtain ⟨rfl, rfl⟩ := Prod.mk.injEq .. ▸ heq1
    subst heq2
    constructor
    · intro _
      simp [hlen]
    · intro hcontra
      exact absurd hlt hcontra
  · subst hl
    obtain ⟨hlen, -, -, -⟩ :=
      musicSegments_spec dist streams simplify tol aend _ 0 segs hmus
    have hne : segs ≠ [] := by
      intro hnil
      rw [hnil] at hlen
      exact absurd hlen.symm (by simp)
    refine ⟨hne, fun hcontra => List.noConfusion hcontra, ?_⟩
    intro l0' t0' rest' heq
    obtain ⟨heq1, heq2⟩ := List.cons.inj heq
    obtain ⟨rfl, rfl⟩ := Prod.mk.injEq .. ▸ heq1
    subst heq2
    constructor
    · intro hcontra
      exact absurd hcontra hlt
    · intro _
      exact hlen

/-- Witness for C10 at a concrete input: a listen exactly at the activity
start, so no leading segment. -/
theorem C10_segment_count_witness :
    build_activity_segments distZero [] [(⟨0⟩, some ⟨"A"⟩)] 0 10 false none =
      .ok [⟨0, some ⟨"A"⟩, 0, 10, []⟩] ∧
    ([⟨0, some ⟨"A"⟩, 0, 10, []⟩] : List Segment) ≠ [] ∧
    (([(⟨0⟩, some ⟨"A"⟩)] : List (Listen × Option Track)) = [] →
      ([⟨0, some ⟨"A"⟩, 0, 10, []⟩] : List Segment).length = 1) ∧
    (∀ l0 t0 rest,
      ([(⟨0⟩, some ⟨"A"⟩)] : List (Listen × Option Track)) =
        (l0, t0) :: rest →
      (((0 : ℤ) < l0.played_at →
        ([⟨0, some ⟨"A"⟩, 0, 10, []⟩] : List Segment).length =
          ([(⟨0⟩, some ⟨"A"⟩)] : List (Listen × Option Track)).length + 1) ∧
       (¬ (0 : ℤ) < l0.played_at →
        ([⟨0, some ⟨"A"⟩, 0, 10, []⟩] : List Segment).length =
          ([(⟨0⟩, some ⟨"A"⟩)] :
            List (Listen × Option Track)).length))) :=
  ⟨by decide,
    C10_segment_count distZero [] [(⟨0⟩, some ⟨"A"⟩)] 0 10 false none
      _ (by decide)⟩

/-- The two track filters partition the segment list. -/
theorem filter_track_lengths (segs : List Segment) :
    (segs.filter fun s => s.track.isSome).length +
      (segs.filter fun s => s.track.isNone).length = segs.length := by
  induction segs with
  | nil => rfl
  | cons s t ih =>
    cases htr : s.track <;>
      simp [List.filter_cons, htr, Nat.succ_eq_add_one] <;> omega

/-- C9: a listen with a failed track lookup still produces a segment (with
its `played_at` as start time and `track = None`), and the statistics count
it on the without-music side: `segments_with_music` counts exactly the
segments with a present track, `segments_without_music` the rest, and the
two sum to `total_segments`. -/
theorem C9_trackless_listens (dist : GpsPoint → GpsPoint → GpsPoint → ℚ)
    (streams : List Model) (listens : List (Listen × Option Track))
    (astart aend : ℤ) (simplify : Bool) (tol : Option F64)
    (segs : List Segment) (k : ℕ)
    (h : build_activity_segments dist streams listens astart aend simplify tol
      = .ok segs) :
    (∀ pr ∈ listens, pr.2 = none →
      ∃ seg ∈ segs, seg.start_time = pr.1.played_at ∧ seg.track = none) ∧
    (calculate_stats segs k).segments_with_music =
      (segs.filter fun s => s.track.isSome).length ∧
    (calculate_stats segs k).segments_without_music =
      (segs.filter fun s => s.track.isNone).length ∧
    (calculate_stats segs k).segments_with_music +
        (calculate_stats segs k).segments_without_music =
      (calculate_stats segs k).total_segments := by
  have hstats2 : (calculate_stats segs k).segments_with_music =
      (segs.filter fun s => s.track.isSome).length := rfl
  have hpart := filter_track_lengths segs
  have hle : (segs.filter fun s => s.track.isSome).length ≤ segs.length :=
    List.length_filter_le _ _
  have hstats3 : (calculate_stats segs k).segments_without_music =
      (segs.filter fun s => s.track.isNone).length := by
    show segs.length - (segs.filter fun s => s.track.isSome).length = _
    omega
  refine ⟨?_, hstats2, hstats3, ?_⟩
  · intro pr hpr hnone
    rcases build_cases dist streams listens astart aend simplify tol segs h
      with ⟨hnil, pts, happ, rfl⟩ |
        ⟨l0, t0, rest, hl, hlt, pts, segs', happ, hmus, rfl⟩ |
        ⟨l0, t0, rest, hl, hlt, hmus⟩
    · subst hnil
      exact absurd hpr (List.not_mem_nil pr)
    · subst hl
      obtain ⟨-, -, hfa, -⟩ :=
        musicSegments_spec dist streams simplify tol aend _ 1 segs' hmus
      obtain ⟨seg, hseg, hR⟩ := forall₂_exists_left hfa pr hpr
      exact ⟨seg, List.mem_cons_of_mem _ hseg, hR.1, hnone ▸ hR.2⟩
    · subst hl
      obtain ⟨-, -, hfa, -⟩ :=
        musicSegments_spec dist streams simplify tol aend _ 0 segs hmus
      obtain ⟨seg, hseg, hR⟩ := forall₂_exists_left hfa pr hpr
      exact ⟨seg, hseg, hR.1, hnone ▸ hR.2⟩
  · show (segs.filter fun s => s.track.isSome).length +
        (segs.length - (segs.filter fun s => s.track.isSome).length) =
        segs.length
    omega

/-- Witness for C9 at a concrete input: one trackless listen. -/
theorem C9_trackless_listens_witness :
    build_activity_segments distZero [] [(⟨5⟩, none)] 0 10 false none =
      .ok [⟨0, none, 0, 5, []⟩, ⟨1, none, 5, 10, []⟩] ∧
    ((∀ pr ∈ ([(⟨5⟩, none)] : List (Listen × Option Track)), pr.2 = none →
      ∃ seg ∈ ([⟨0, none, 0, 5, []⟩, ⟨1, none, 5, 10, []⟩] : List Segment),
        seg.start_time = pr.1.played_at ∧ seg.track = none) ∧
    (calculate_stats [⟨0, none, 0, 5, []⟩, ⟨1, none, 5, 10, []⟩]
        7).segments_with_music =
      (([⟨0, none, 0, 5, []⟩, ⟨1, none, 5, 10, []⟩] : List Segment).filter
        fun s => s.track.isSome).length ∧
    (calculate_stats [⟨0, none, 0, 5, []⟩, ⟨1, none, 5, 10, []⟩]
        7).segments_without_music =
      (([⟨0, none, 0, 5, []⟩, ⟨1, none, 5, 10, []⟩] : List Segment).filter
        fun s => s.track.isNone).length ∧
    (calculate_stats [⟨0, none, 0, 5, []⟩, ⟨1, none, 5, 10, []⟩]
        7).segments_with_music +
      (calculate_stats [⟨0, none, 0, 5, []⟩, ⟨1, none, 5, 10, []⟩]
        7).segments_without_music =
      (calculate_stats [⟨0, none, 0, 5, []⟩, ⟨1, none, 5, 10, []⟩]
        7).total_segments) :=
  ⟨by decide,
    C9_trackless_listens distZero [] [(⟨5⟩, none)] 0 10 false none
      _ 7 (by decide)⟩

/-! ## The activity-end boundary (C7) -/

/-- Every point of every listen-driven segment lies strictly below the
activity end (the filters are half-open, including for the last segment). -/
theorem musicSegments_points_lt (dist : GpsPoint → GpsPoint → GpsPoint → ℚ)
    (streams : List Model) (simplify : Bool) (tol : Option F64) (aend : ℤ) :
    ∀ (listens : List (Listen × Option Track)) (k : ℕ) (segs : List Segment),
      (∀ pr ∈ listens, pr.1.played_at ≤ aend) →
      musicSegments dist streams simplify tol aend listens k = .ok segs →
      ∀ seg ∈ segs, ∀ p ∈ seg.points, p.time < aend := by
  intro listens
  induction listens with
  | nil =>
    intro k segs _ h
    rw [musicSegments] at h
    rw [Except.ok.injEq] at h
    subst h
    simp
  | cons pr rest ih =>
    obtain ⟨l, tr⟩ := pr
    intro k segs hwin h
    simp only [musicSegments] at h
    split at h
    · exact absurd h (by simp)
    next pts2 happ =>
      split at h
      · exact absurd h (by simp)
      next segs' hrec =>
        rw [Except.ok.injEq] at h
        subst h
        intro seg hseg p hp
        rcases List.mem_cons.1 hseg with rfl | hseg
        · have hmem := applySimplification_ok_mem _ _ _ _ _ happ p hp
          rw [List.mem_filter] at hmem
          have hcond := hmem.2
          simp only [Bool.and_eq_true, decide_eq_true_eq] at hcond
          cases rest with
          | nil => exact hcond.2
          | cons pr2 rest2 =>
            obtain ⟨l2, t2⟩ := pr2
            have h2le : l2.played_at ≤ aend :=
              hwin (l2, t2) (List.mem_cons_of_mem _ (List.mem_cons_self _ _))
            have hlt : p.time < l2.played_at := hcond.2
            omega
        · exact ih (k + 1) segs'
            (fun pr2 hpr2 => hwin pr2 (List.mem_cons_of_mem _ hpr2))
            hrec seg hseg p hp

/-- C7 counterexample: with a non-empty listen list, a sample at exactly
`activity_end` is excluded from the last segment — the music-segment filter
is strictly `< end_time` even for the final segment.  Here the single listen
starts at the activity start, the sole sample sits at `activity_end = 10`,
and the produced segment has no points. -/
theorem C7_counterexample :
    build_activity_segments distZero [⟨10, some 0, some 0⟩]
      [(⟨0⟩, some ⟨"A"⟩)] 0 10 false none =
      .ok [⟨0, some ⟨"A"⟩, 0, 10, []⟩] ∧
    (⟨10, some 0, some 0⟩ : Model).time = 10 ∧
    (⟨10, some 0, some 0⟩ : Model) ∉ (⟨0, some ⟨"A"⟩, 0, 10, []⟩ :
      Segment).points := by
  refine ⟨by decide, rfl, by decide⟩

/-- C7 amended: a sample with timestamp exactly `activity_end` is included
(in the single segment, when simplification is off) only when
`listens_with_tracks` is empty; when listens are present, every emitted
segment carries only samples strictly before `activity_end`, so such a
sample is dropped. -/
theorem C7_amended_end_boundary (dist : GpsPoint → GpsPoint → GpsPoint → ℚ)
    (streams : List Model) (listens : List (Listen × Option Track))
    (astart aend : ℤ) (simplify : Bool) (tol : Option F64)
    (segs : List Segment)
    (hwin : ∀ pr ∈ listens, pr.1.played_at ≤ aend)
    (h : build_activity_segments dist streams listens astart aend simplify tol
      = .ok segs) :
    (listens = [] → simplify = false →
      ∃ seg, segs = [seg] ∧
        ∀ p, p ∈ seg.points ↔
          p ∈ streams ∧ astart ≤ p.time ∧ p.time ≤ aend) ∧
    (listens ≠ [] → ∀ seg ∈ segs, ∀ p ∈ seg.points, p.time < aend) := by
  rcases build_cases dist streams listens astart aend simplify tol segs h with
    ⟨hnil, pts, happ, rfl⟩ |
    ⟨l0, t0, rest, hl, hlt, pts, segs', happ, hmus, rfl⟩ |
    ⟨l0, t0, rest, hl, hlt, hmus⟩
  · constructor
    · intro _ hsimp
      subst hsimp
      rw [applySimplification_not_simplify] at happ
      rw [Except.ok.injEq] at happ
      subst happ
      refine ⟨_, rfl, ?_⟩
      intro p
      show p ∈ List.filter _ streams ↔ _
      rw [List.mem_filter]
      simp only [Bool.and_eq_true, decide_eq_true_eq]
    · intro hne
      exact absurd hnil hne
  · subst hl
    constructor
    · intro hcontra
      exact List.noConfusion hcontra
    · intro _ seg hseg p hp
      rcases List.mem_cons.1 hseg with rfl | hseg
      · have hmem := applySimplification_ok_mem _ _ _ _ _ happ p hp
        rw [List.mem_filter] at hmem
        have hcond := hmem.2
        simp only [Bool.and_eq_true, decide_eq_true_eq] at hcond
        have hl0 : l0.played_at ≤ aend :=
          hwin (l0, t0) (List.mem_cons_self _ _)
        have := hcond.2
        show p.time < aend
        omega
      · exact musicSegments_points_lt dist streams simplify tol aend _ 1
          segs' hwin hmus seg hseg p hp
  · subst hl
    constructor
    · intro hcontra
      exact List.noConfusion hcontra
    · intro _
      exact musicSegments_points_lt dist streams simplify tol aend _ 0
        segs hwin hmus

/-- Witness for the amended C7: the empty-listens branch keeps the sample at
the activity end; a non-empty-listens run drops it. -/
theorem C7_amended_end_boundary_witness :
    build_activity_segments distZero [⟨10, some 0, some 0⟩] [] 0 10 false none
      = .ok [⟨0, none, 0, 10, [⟨10, some 0, some 0⟩]⟩] ∧
    ((([] : List (Listen × Option Track)) = [] → false = false →
      ∃ seg, ([⟨0, none, 0, 10, [⟨10, some 0, some 0⟩]⟩] :
          List Segment) = [seg] ∧
        ∀ p, p ∈ seg.points ↔
          p ∈ [(⟨10, some 0, some 0⟩ : Model)] ∧
            (0 : ℤ) ≤ p.time ∧ p.time ≤ 10) ∧
    (([] : List (Listen × Option Track)) ≠ [] →
      ∀ seg ∈ ([⟨0, none, 0, 10, [⟨10, some 0, some 0⟩]⟩] : List Segment),
        ∀ p ∈ seg.points, p.time < 10)) :=
  ⟨by decide,
    C7_amended_end_boundary distZero [⟨10, some 0, some 0⟩] [] 0 10 false none
      _ (by decide) (by decide)⟩

/-! ## Evaluating the RDP reduction under the all-zero distance (C8) -/

theorem findFarthestAux_distZero (pts : List GpsPoint) (ls le : GpsPoint) :
    ∀ (idxs : List ℕ) (mIdx : ℕ),
    findFarthestAux distZero pts ls le idxs mIdx 0 = (mIdx, 0) := by
  intro idxs
  induction idxs with
  | nil => intro mIdx; rfl
  | cons i rest ih =>
    intro mIdx
    rw [findFarthestAux]
    simp only [distZero, lt_irrefl, if_false]
    exact ih mIdx

theorem find_farthest_point_distZero (pts : List GpsPoint) (s e : ℕ) :
    find_farthest_point distZero pts s e = (s, 0) := by
  rw [find_farthest_point]
  exact findFarthestAux_distZero pts _ _ _ s

/-- With all perpendicular distances zero and a positive finite tolerance,
the work-list loop never marks an interior point. -/
theorem rdpLoop_distZero (pts : List GpsPoint) (q : ℚ) (hq : 0 < q) :
    ∀ (stack : List (ℕ × ℕ)) (keep : List Bool),
    rdpLoop distZero pts (.finite q) stack keep = keep := by
  intro stack keep
  induction stack, keep using rdpLoop.induct distZero pts (.finite q) with
  | case1 keep => rw [rdpLoop]
  | case2 keep s e rest h ih => rw [rdpLoop]; simp [h, ih]
  | case3 keep s e rest h hgt hin ih =>
    rw [find_farthest_point_distZero] at hgt
    simp only [F64.qGt, decide_eq_true_eq] at hgt
    exact absurd hgt (not_lt.2 (le_of_lt hq))
  | case4 keep s e rest h hgt hin ih =>
    rw [find_farthest_point_distZero] at hgt
    simp only [F64.qGt, decide_eq_true_eq] at hgt
    exact absurd hgt (not_lt.2 (le_of_lt hq))
  | case5 keep s e rest h hgt ih => rw [rdpLoop]; simp [h, hgt, ih]

/-- C8 counterexample: with simplification on, the leading no-music segment
does not contain *exactly* the samples of `[activity_start, first_listen)` —
the RDP pass drops the middle of three collinear samples (all pairwise
perpendicular distances are zero, matching `distZero`), keeping only the
endpoints. -/
theorem C8_counterexample :
    build_activity_segments distZero
      [⟨1, some 0, some 0⟩, ⟨2, some 1, some 1⟩, ⟨3, some 2, some 2⟩]
      [(⟨5⟩, some ⟨"A"⟩)] 0 10 true (some (.finite 100)) =
      .ok [⟨0, none, 0, 5, [⟨1, some 0, some 0⟩, ⟨3, some 2, some 2⟩]⟩,
           ⟨1, some ⟨"A"⟩, 5, 10, []⟩] ∧
    ((0 : ℤ) ≤ (⟨2, some 1, some 1⟩ : Model).time ∧
      (⟨2, some 1, some 1⟩ : Model).time < (⟨5⟩ : Listen).played_at) ∧
    (⟨2, some 1, some 1⟩ : Model) ∉
      ([⟨1, some 0, some 0⟩, ⟨3, some 2, some 2⟩] : List Model) := by
  have hrdp : rdp_iterative distZero
      (extract_gps_points [⟨1, some 0, some 0⟩, ⟨2, some 1, some 1⟩,
        ⟨3, some 2, some 2⟩]).1 (.finite 100) = [true, false, true] := by
    simp only [rdp_iterative]
    rw [rdpLoop_distZero _ 100 (by norm_num)]
    decide
  have hsimp : simplify_gps_route distZero
      [⟨1, some 0, some 0⟩, ⟨2, some 1, some 1⟩, ⟨3, some 2, some 2⟩]
      (.finite 100) = .ok [0, 2] := by
    rw [simplify_eval_ge_three distZero _ _ (by decide) (by decide)]
    rw [hrdp]
    decide
  refine ⟨?_, by decide, by decide⟩
  apply build_eval_leading
  · decide
  · have hpre : List.filter (fun s : Model =>
        decide ((0 : ℤ) ≤ s.time) &&
          decide (s.time < (⟨5⟩ : Listen).played_at))
        [⟨1, some 0, some 0⟩, ⟨2, some 1, some 1⟩, ⟨3, some 2, some 2⟩] =
        [⟨1, some 0, some 0⟩, ⟨2, some 1, some 1⟩, ⟨3, some 2, some 2⟩] := by
      decide
    rw [hpre, applySimplification, if_pos (by decide)]
    rw [show (some (F64.finite 100)).getD defaultTolerance = .finite 100
      from rfl]
    rw [hsimp]
    decide
  · decide

/-- C8 amended: a leading track-less segment is emitted iff the first
listen's `played_at` is strictly after `activity_start`; when emitted it
spans `[activity_start, first_listen.played_at)` and its points are drawn
from the samples of that half-open range — exactly those samples when
simplification is not applied, a simplifier-selected subset otherwise.  When
the first listen starts at `activity_start`, no extra segment is emitted:
the segment list has one segment per listen, the first starting at the first
listen. -/
theorem C8_amended_leading_segment (dist : GpsPoint → GpsPoint → GpsPoint → ℚ)
    (streams : List Model) (listens : List (Listen × Option Track))
    (astart aend : ℤ) (simplify : Bool) (tol : Option F64)
    (segs : List Segment) (l0 : Listen) (t0 : Option Track)
    (rest : List (Listen × Option Track))
    (hl : listens = (l0, t0) :: rest)
    (h : build_activity_segments dist streams listens astart aend simplify tol
      = .ok segs) :
    (astart < l0.played_at →
      ∃ pts, segs.head? = some ⟨0, none, astart, l0.played_at, pts⟩ ∧
        segs.length = listens.length + 1 ∧
        (∀ p ∈ pts, p ∈ streams ∧ astart ≤ p.time ∧ p.time < l0.played_at) ∧
        (simplify = false →
          pts = streams.filter fun s =>
            decide (astart ≤ s.time) && decide (s.time < l0.played_at))) ∧
    (¬ astart < l0.played_at →
      segs.length = listens.length ∧
      ∃ s0, segs.head? = some s0 ∧ s0.start_time = l0.played_at ∧
        s0.track = t0) := by
  subst hl
  rcases build_cases dist streams _ astart aend simplify tol segs h with
    ⟨hnil, pts, happ, rfl⟩ |
    ⟨l0', t0', rest', hl', hlt, pts, segs', happ, hmus, rfl⟩ |
    ⟨l0', t0', rest', hl', hlt, hmus⟩
  · exact List.noConfusion hnil
  · obtain ⟨heq1, heq2⟩ := List.cons.inj hl'
    obtain ⟨rfl, rfl⟩ := Prod.mk.injEq .. ▸ heq1
    subst heq2
    obtain ⟨hlen, -, -, -⟩ :=
      musicSegments_spec dist streams simplify tol aend _ 1 segs' hmus
    constructor
    · intro _
      refine ⟨pts, rfl, by simp [hlen], ?_, ?_⟩
      · intro p hp
        have hmem := applySimplification_ok_mem _ _ _ _ _ happ p hp
        rw [List.mem_filter] at hmem
        have hcond := hmem.2
        simp only [Bool.and_eq_true, decide_eq_true_eq] at hcond
        exact ⟨hmem.1, hcond.1, hcond.2⟩
      · intro hsimp
        subst hsimp
        rw [applySimplification_not_simplify] at happ
        rw [Except.ok.injEq] at happ
        exact happ.symm
    · intro hcontra
      exact absurd hlt hcontra
  · obtain ⟨heq1, heq2⟩ := List.cons.inj hl'
    obtain ⟨rfl, rfl⟩ := Prod.mk.injEq .. ▸ heq1
    subst heq2
    obtain ⟨hlen, -, hfa, -⟩ :=
      musicSegments_spec dist streams simplify tol aend _ 0 segs hmus
    constructor
    · intro hcontra
      exact absurd hcontra hlt
    · intro _
      refine ⟨hlen, ?_⟩
      cases segs with
      | nil => exact absurd hlen.symm (by simp)
      | cons s0 t =>
        have hR := (List.forall₂_cons.1 hfa).1
        exact ⟨s0, rfl, hR.1, hR.2⟩

/-- Witness for the amended C8 at a concrete input: one listen strictly
after the start, no simplification. -/
theorem C8_amended_leading_segment_witness :
    build_activity_segments distZero [⟨1, some 0, some 0⟩]
      [(⟨5⟩, some ⟨"A"⟩)] 0 10 false none =
      .ok [⟨0, none, 0, 5, [⟨1, some 0, some 0⟩]⟩,
           ⟨1, some ⟨"A"⟩, 5, 10, []⟩] ∧
    ((((0 : ℤ) < (⟨5⟩ : Listen).played_at →
      ∃ pts, ([⟨0, none, 0, 5, [⟨1, some 0, some 0⟩]⟩,
          ⟨1, some ⟨"A"⟩, 5, 10, []⟩] : List Segment).head? =
          some ⟨0, none, 0, (⟨5⟩ : Listen).played_at, pts⟩ ∧
        ([⟨0, none, 0, 5, [⟨1, some 0, some 0⟩]⟩,
          ⟨1, some ⟨"A"⟩, 5, 10, []⟩] : List Segment).length =
          ([(⟨5⟩, some ⟨"A"⟩)] :
            List (Listen × Option Track)).length + 1 ∧
        (∀ p ∈ pts, p ∈ [(⟨1, some 0, some 0⟩ : Model)] ∧
          (0 : ℤ) ≤ p.time ∧ p.time < (⟨5⟩ : Listen).played_at) ∧
        (false = false →
          pts = [(⟨1, some 0, some 0⟩ : Model)].filter fun s =>
            decide ((0 : ℤ) ≤ s.time) &&
              decide (s.time < (⟨5⟩ : Listen).played_at))) ∧
    (¬ (0 : ℤ) < (⟨5⟩ : Listen).played_at →
      ([⟨0, none, 0, 5, [⟨1, some 0, some 0⟩]⟩,
        ⟨1, some ⟨"A"⟩, 5, 10, []⟩] : List Segment).length =
        ([(⟨5⟩, some ⟨"A"⟩)] : List (Listen × Option Track)).length ∧
      ∃ s0, ([⟨0, none, 0, 5, [⟨1, some 0, some 0⟩]⟩,
          ⟨1, some ⟨"A"⟩, 5, 10, []⟩] : List Segment).head? = some s0 ∧
        s0.start_time = (⟨5⟩ : Listen).played_at ∧
        s0.track = some ⟨"A"⟩))) :=
  ⟨by decide,
    C8_amended_leading_segment distZero [⟨1, some 0, some 0⟩]
      [(⟨5⟩, some ⟨"A"⟩)] 0 10 false none _ ⟨5⟩ (some ⟨"A"⟩) [] rfl
      (by decide)⟩

/-! ## Point-count accounting (C6) -/

theorem countIn_cons (m : Model) (t : List Model) (a b : ℤ) :
    countIn (m :: t) a b =
      countIn t a b + (if a ≤ m.time ∧ m.time < b then 1 else 0) := by
  simp only [countIn, List.filter_cons]
  by_cases h : a ≤ m.time ∧ m.time < b
  · rw [if_pos h, if_pos (by simp [h.1, h.2])]
    simp
  · rw [if_neg h, if_neg (by simpa [Bool.and_eq_true, decide_eq_true_eq,
      Decidable.not_and_iff_or_not] using h)]
    simp

theorem countIn_split (a b c : ℤ) (hab : a ≤ b) (hbc : b ≤ c) :
    ∀ streams : List Model,
    countIn streams a b + countIn streams b c = countIn streams a c := by
  intro streams
  induction streams with
  | nil => rfl
  | cons m t ih =>
    rw [countIn_cons, countIn_cons, countIn_cons]
    split_ifs with h1 h2 h3 <;> omega

/-- When every in-window sample has coordinates, the half-open window count
is at most the `original_gps_points` count. -/
theorem countIn_le_original (streams : List Model) (a b : ℤ)
    (hcoords : ∀ s ∈ streams, a ≤ s.time → s.time ≤ b →
      validCoords s = true) :
    countIn streams a b ≤ original_gps_points streams a b := by
  rw [countIn, original_gps_points, ← List.countP_eq_length_filter,
    ← List.countP_eq_length_filter]
  apply List.countP_mono_left
  intro s hs hcond
  simp only [Bool.and_eq_true, decide_eq_true_eq] at hcond
  have hv := hcoords s hs hcond.1 (by omega)
  simp only [validCoords, Bool.and_eq_true] at hv
  simp only [Bool.and_eq_true, decide_eq_true_eq]
  exact ⟨⟨⟨hv.1, hv.2⟩, hcond.1⟩, by omega⟩

/-- Same bound for the closed-window filter of the empty-listens branch. -/
theorem filter_closed_le_original (streams : List Model) (a b : ℤ)
    (hcoords : ∀ s ∈ streams, a ≤ s.time → s.time ≤ b →
      validCoords s = true) :
    (streams.filter fun s =>
      decide (a ≤ s.time) && decide (s.time ≤ b)).length ≤
      original_gps_points streams a b := by
  rw [original_gps_points, ← List.countP_eq_length_filter,
    ← List.countP_eq_length_filter]
  apply List.countP_mono_left
  intro s hs hcond
  simp only [Bool.and_eq_true, decide_eq_true_eq] at hcond
  have hv := hcoords s hs hcond.1 hcond.2
  simp only [validCoords, Bool.and_eq_true] at hv
  simp only [Bool.and_eq_true, decide_eq_true_eq]
  exact ⟨⟨⟨hv.1, hv.2⟩, hcond.1⟩, hcond.2⟩

/-- The listen-driven segments cover pairwise-disjoint adjacent half-open
windows, so their point counts sum to at most the count of the window from
the first listen to the activity end. -/
theorem musicSegments_sum_le (dist : GpsPoint → GpsPoint → GpsPoint → ℚ)
    (streams : List Model) (simplify : Bool) (tol : Option F64) (aend : ℤ) :
    ∀ (rest : List (Listen × Option Track)) (l : Listen) (tr : Option Track)
      (k : ℕ) (segs : List Segment),
    List.Chain' (fun x y : Listen × Option Track =>
      x.1.played_at ≤ y.1.played_at) ((l, tr) :: rest) →
    (∀ pr ∈ (l, tr) :: rest, pr.1.played_at ≤ aend) →
    musicSegments dist streams simplify tol aend ((l, tr) :: rest) k =
      .ok segs →
    (segs.map fun s => s.points.length).sum ≤
      countIn streams l.played_at aend := by
  intro rest
  induction rest with
  | nil =>
    intro l tr k segs hchain hwin h
    simp only [musicSegments] at h
    split at h
    · exact absurd h (by simp)
    next pts2 happ =>
      rw [Except.ok.injEq] at h
      subst h
      have hle : pts2.length ≤ countIn streams l.played_at aend :=
        applySimplification_ok_length _ _ _ _ _ happ
      simp only [List.map_cons, List.map_nil, List.sum_cons, List.sum_nil]
      omega
  | cons pr2 rest2 ih =>
    obtain ⟨l2, t2⟩ := pr2
    intro l tr k segs hchain hwin h
    simp only [musicSegments] at h
    split at h
    · exact absurd h (by simp)
    next pts2 happ =>
      split at h
      · exact absurd h (by simp)
      next segs' hrec =>
        rw [Except.ok.injEq] at h
        subst h
        have hle : pts2.length ≤ countIn streams l.played_at l2.played_at :=
          applySimplification_ok_length _ _ _ _ _ happ
        have hchain2 := (List.chain'_cons.1 hchain)
        have hsum' := ih l2 t2 (k + 1) segs' hchain2.2
          (fun pr hpr => hwin pr (List.mem_cons_of_mem _ hpr)) hrec
        have hl2end : l2.played_at ≤ aend :=
          hwin (l2, t2) (List.mem_cons_of_mem _ (List.mem_cons_self _ _))
        have hsplit := countIn_split l.played_at l2.played_at aend
          hchain2.1 hl2end streams
        simp only [List.map_cons, List.sum_cons]
        show pts2.length + _ ≤ _
        omega

/-- The ratio computed by `calculate_stats` lies in `[0, 1]` whenever the
summed point count is at most `original_points`. -/
theorem calculate_stats_ratio_bounds (segs : List Segment) (k : ℕ)
    (hsum : (segs.map fun s => s.points.length).sum ≤ k) :
    0 ≤ (calculate_stats segs k).reduction_ratio ∧
      (calculate_stats segs k).reduction_ratio ≤ 1 := by
  have hr : (calculate_stats segs k).reduction_ratio =
      if 0 < k then
        (Nat.cast ((segs.map fun s => s.points.length).sum) : ℚ) / Nat.cast k
      else 0 := rfl
  rw [hr]
  split_ifs with hpos
  · constructor
    · exact div_nonneg (Nat.cast_nonneg _) (Nat.cast_nonneg _)
    · rw [div_le_one (by exact_mod_cast hpos)]
      exact_mod_cast hsum
  · exact ⟨le_refl 0, zero_le_one⟩

/-- C6 counterexample: a coordinate-less sample inside the activity window
lands in a one-point segment, which is never simplified; it is counted in
`simplified_points` but not in `original_points`, so with simplification
requested (and vacuously applied to every segment with ≥ 2 points) the
inequality and the ratio bound both fail. -/
theorem C6_counterexample :
    build_activity_segments distZero
      [⟨2, none, none⟩, ⟨6, some 0, some 0⟩]
      [(⟨0⟩, some ⟨"A"⟩), (⟨5⟩, some ⟨"B"⟩)] 0 10 true none =
      .ok [⟨0, some ⟨"A"⟩, 0, 5, [⟨2, none, none⟩]⟩,
           ⟨1, some ⟨"B"⟩, 5, 10, [⟨6, some 0, some 0⟩]⟩] ∧
    original_gps_points [⟨2, none, none⟩, ⟨6, some 0, some 0⟩] 0 10 = 1 ∧
    (∀ seg ∈ ([⟨0, some ⟨"A"⟩, 0, 5, [⟨2, none, none⟩]⟩,
        ⟨1, some ⟨"B"⟩, 5, 10, [⟨6, some 0, some 0⟩]⟩] : List Segment),
      seg.points.length < 2) ∧
    ¬ ((calculate_stats
        [⟨0, some ⟨"A"⟩, 0, 5, [⟨2, none, none⟩]⟩,
         ⟨1, some ⟨"B"⟩, 5, 10, [⟨6, some 0, some 0⟩]⟩]
        (original_gps_points [⟨2, none, none⟩, ⟨6, some 0, some 0⟩]
          0 10)).simplified_points ≤
      (calculate_stats
        [⟨0, some ⟨"A"⟩, 0, 5, [⟨2, none, none⟩]⟩,
         ⟨1, some ⟨"B"⟩, 5, 10, [⟨6, some 0, some 0⟩]⟩]
        (original_gps_points [⟨2, none, none⟩, ⟨6, some 0, some 0⟩]
          0 10)).original_points) ∧
    ¬ ((calculate_stats
        [⟨0, some ⟨"A"⟩, 0, 5, [⟨2, none, none⟩]⟩,
         ⟨1, some ⟨"B"⟩, 5, 10, [⟨6, some 0, some 0⟩]⟩]
        (original_gps_points [⟨2, none, none⟩, ⟨6, some 0, some 0⟩]
          0 10)).reduction_ratio ≤ 1) := by
  refine ⟨by decide, by decide, by decide, by decide, ?_⟩
  have hr : (calculate_stats
      [⟨0, some ⟨"A"⟩, 0, 5, [⟨2, none, none⟩]⟩,
       ⟨1, some ⟨"B"⟩, 5, 10, [⟨6, some 0, some 0⟩]⟩]
      (original_gps_points [⟨2, none, none⟩, ⟨6, some 0, some 0⟩]
        0 10)).reduction_ratio = ((2 : ℕ) : ℚ) / ((1 : ℕ) : ℚ) := rfl
  rw [hr]
  norm_num

/-- C6 amended: when every sample inside the activity window carries both
coordinates (the counterexample shows the claim fails without this), a
successful simplifying build satisfies
`simplified_points ≤ original_points` and the reduction ratio lies in
`[0, 1]`. -/
theorem C6_amended_reduction_bounds
    (dist : GpsPoint → GpsPoint → GpsPoint → ℚ) (streams : List Model)
    (listens : List (Listen × Option Track)) (astart aend : ℤ)
    (tol : Option F64) (segs : List Segment)
    (hsorted : List.Chain' (fun a b : Listen × Option Track =>
      a.1.played_at ≤ b.1.played_at) listens)
    (hwin : ∀ pr ∈ listens,
      astart ≤ pr.1.played_at ∧ pr.1.played_at ≤ aend)
    (hcoords : ∀ s ∈ streams, astart ≤ s.time → s.time ≤ aend →
      validCoords s = true)
    (h : build_activity_segments dist streams listens astart aend true tol
      = .ok segs) :
    (calculate_stats segs
        (original_gps_points streams astart aend)).simplified_points ≤
      (calculate_stats segs
        (original_gps_points streams astart aend)).original_points ∧
    0 ≤ (calculate_stats segs
        (original_gps_points streams astart aend)).reduction_ratio ∧
    (calculate_stats segs
        (original_gps_points streams astart aend)).reduction_ratio ≤ 1 := by
  have hsum : (segs.map fun s => s.points.length).sum ≤
      original_gps_points streams astart aend := by
    rcases build_cases dist streams listens astart aend true tol segs h with
      ⟨hnil, pts, happ, rfl⟩ |
      ⟨l0, t0, rest, hl, hlt, pts, segs', happ, hmus, rfl⟩ |
      ⟨l0, t0, rest, hl, hlt, hmus⟩
    · have hle := applySimplification_ok_length _ _ _ _ _ happ
      have hbound := filter_closed_le_original streams astart aend hcoords
      simp only [List.map_cons, List.map_nil, List.sum_cons, List.sum_nil]
      omega
    · subst hl
      have hle : pts.length ≤ countIn streams astart l0.played_at :=
        applySimplification_ok_length _ _ _ _ _ happ
      have hw0 : astart ≤ l0.played_at ∧ l0.played_at ≤ aend :=
        hwin (l0, t0) (List.mem_cons_self _ _)
      have hsum' := musicSegments_sum_le dist streams true tol aend rest
        l0 t0 1 segs' hsorted (fun pr hpr => (hwin pr hpr).2) hmus
      have hsplit := countIn_split astart l0.played_at aend
        (le_of_lt hlt) hw0.2 streams
      have hbound := countIn_le_original streams astart aend hcoords
      simp only [List.map_cons, List.sum_cons]
      show pts.length + _ ≤ _
      omega
    · subst hl
      have hw0 : astart ≤ l0.played_at ∧ l0.played_at ≤ aend :=
        hwin (l0, t0) (List.mem_cons_self _ _)
      have heq : l0.played_at = astart := by omega
      have hsum' := musicSegments_sum_le dist streams true tol aend rest
        l0 t0 0 segs hsorted (fun pr hpr => (hwin pr hpr).2) hmus
      have hbound := countIn_le_original streams astart aend hcoords
      rw [heq] at hsum'
      omega
  have hratio := calculate_stats_ratio_bounds segs
    (original_gps_points streams astart aend) hsum
  exact ⟨hsum, hratio.1, hratio.2⟩

/-- Witness for the amended C6 at a concrete input: all in-window samples
carry coordinates; single-point segments pass through. -/
theorem C6_amended_reduction_bounds_witness :
    build_activity_segments distZero [⟨6, some 0, some 0⟩]
      [(⟨0⟩, some ⟨"A"⟩), (⟨5⟩, some ⟨"B"⟩)] 0 10 true none =
      .ok [⟨0, some ⟨"A"⟩, 0, 5, []⟩,
           ⟨1, some ⟨"B"⟩, 5, 10, [⟨6, some 0, some 0⟩]⟩] ∧
    ((calculate_stats
        [⟨0, some ⟨"A"⟩, 0, 5, []⟩,
         ⟨1, some ⟨"B"⟩, 5, 10, [⟨6, some 0, some 0⟩]⟩]
        (original_gps_points [⟨6, some 0, some 0⟩] 0 10)).simplified_points ≤
      (calculate_stats
        [⟨0, some ⟨"A"⟩, 0, 5, []⟩,
         ⟨1, some ⟨"B"⟩, 5, 10, [⟨6, some 0, some 0⟩]⟩]
        (original_gps_points [⟨6, some 0, some 0⟩] 0 10)).original_points ∧
    0 ≤ (calculate_stats
        [⟨0, some ⟨"A"⟩, 0, 5, []⟩,
         ⟨1, some ⟨"B"⟩, 5, 10, [⟨6, some 0, some 0⟩]⟩]
        (original_gps_points [⟨6, some 0, some 0⟩] 0 10)).reduction_ratio ∧
    (calculate_stats
        [⟨0, some ⟨"A"⟩, 0, 5, []⟩,
         ⟨1, some ⟨"B"⟩, 5, 10, [⟨6, some 0, some 0⟩]⟩]
        (original_gps_points [⟨6, some 0, some 0⟩] 0 10)).reduction_ratio
      ≤ 1) :=
  ⟨by decide,
    C6_amended_reduction_bounds distZero [⟨6, some 0, some 0⟩]
      [(⟨0⟩, some ⟨"A"⟩), (⟨5⟩, some ⟨"B"⟩)] 0 10 none _
      (by simp [List.chain'_cons]) (by decide) (by decide) (by decide)⟩

/-! ## The distance conversion formula (C4) -/

theorem meters_per_degree_nonneg : (0 : ℝ) ≤ METERS_PER_DEGREE_LAT := by
  rw [METERS_PER_DEGREE_LAT]
  norm_num

theorem line_len_example : line_len_deg ⟨0, 0⟩ ⟨0, 2⟩ = 2 := by
  rw [line_len_deg]
  rw [show (GpsPointR.mk 0 2).lng - (GpsPointR.mk 0 0).lng = 2 by norm_num,
    show (GpsPointR.mk 0 2).lat - (GpsPointR.mk 0 0).lat = 0 by norm_num]
  rw [show (2 : ℝ) * 2 + 0 * 0 = 2 ^ 2 by ring]
  exact Real.sqrt_sq (by norm_num)

theorem cross_example : cross_product ⟨1, 0⟩ ⟨0, 0⟩ ⟨0, 2⟩ = -2 := by
  rw [cross_product]
  dsimp only
  norm_num

theorem perpendicular_example : perpendicular_distance ⟨1, 0⟩ ⟨0, 0⟩ ⟨0, 2⟩ =
    Real.sqrt (METERS_PER_DEGREE_LAT * METERS_PER_DEGREE_LAT +
      METERS_PER_DEGREE_LAT * METERS_PER_DEGREE_LAT) := by
  rw [perpendicular_distance,
    if_neg (by rw [line_len_example]; norm_num)]
  simp only [degrees_to_meters, cross_example, line_len_example]
  rw [show ((0 : ℝ) + 0) / 2 * Real.pi / 180 = 0 by ring, Real.cos_zero]
  rw [show |(-2 : ℝ)| = 2 by rw [abs_of_nonpos] <;> norm_num]
  norm_num

theorem spec_perpendicular_example :
    spec_perpendicular_distance ⟨1, 0⟩ ⟨0, 0⟩ ⟨0, 2⟩ =
      METERS_PER_DEGREE_LAT := by
  rw [spec_perpendicular_distance, cross_example, line_len_example]
  rw [show ((0 : ℝ) + 0) / 2 * Real.pi / 180 = 0 by ring, Real.cos_zero]
  rw [show |(-2 : ℝ)| = 2 by rw [abs_of_nonpos] <;> norm_num]
  norm_num

/-- C4 counterexample: at the equator (`cos = 1`, where the claimed scaling
is the identity) the code still multiplies by `sqrt(M² + M²) = M·√2`, not by
`M`; the two formulas differ at a non-degenerate input. -/
theorem C4_counterexample :
    ¬ line_len_deg ⟨0, 0⟩ ⟨0, 2⟩ < 1e-10 ∧
    perpendicular_distance ⟨1, 0⟩ ⟨0, 0⟩ ⟨0, 2⟩ ≠
      spec_perpendicular_distance ⟨1, 0⟩ ⟨0, 0⟩ ⟨0, 2⟩ := by
  refine ⟨by rw [line_len_example]; norm_num, ?_⟩
  rw [perpendicular_example, spec_perpendicular_example]
  intro heq
  have hlt : METERS_PER_DEGREE_LAT <
      Real.sqrt (METERS_PER_DEGREE_LAT * METERS_PER_DEGREE_LAT +
        METERS_PER_DEGREE_LAT * METERS_PER_DEGREE_LAT) := by
    rw [Real.lt_sqrt meters_per_degree_nonneg]
    rw [METERS_PER_DEGREE_LAT]
    norm_num
  rw [heq] at hlt
  exact lt_irrefl _ hlt

/-- C4 amended: away from the degeneracy threshold, the perpendicular
distance is the cross-product magnitude over the chord length in degrees,
multiplied by `111320 · sqrt(1 + cos²(average_latitude_in_radians))` — the
code's conversion applies this factor rather than scaling by
`cos(average_latitude_in_radians)` alone. -/
theorem C4_amended_conversion (point ls le : GpsPointR)
    (h : ¬ line_len_deg ls le < 1e-10) :
    perpendicular_distance point ls le =
      amended_perpendicular_distance point ls le := by
  rw [perpendicular_distance, if_neg h]
  simp only [degrees_to_meters, amended_perpendicular_distance,
    actual_meters_factor]
  have hfac : ∀ c : ℝ,
      Real.sqrt (METERS_PER_DEGREE_LAT * METERS_PER_DEGREE_LAT +
        (METERS_PER_DEGREE_LAT * c) * (METERS_PER_DEGREE_LAT * c)) =
      METERS_PER_DEGREE_LAT * Real.sqrt (1 + c ^ 2) := by
    intro c
    rw [show METERS_PER_DEGREE_LAT * METERS_PER_DEGREE_LAT +
        (METERS_PER_DEGREE_LAT * c) * (METERS_PER_DEGREE_LAT * c) =
        METERS_PER_DEGREE_LAT ^ 2 * (1 + c ^ 2) by ring]
    rw [Real.sqrt_mul (by positivity), Real.sqrt_sq meters_per_degree_nonneg]
  rw [hfac]

/-- Witness for the amended C4 at the non-degenerate input of the
counterexample. -/
theorem C4_amended_conversion_witness :
    ¬ line_len_deg ⟨0, 0⟩ ⟨0, 2⟩ < 1e-10 ∧
    perpendicular_distance ⟨1, 0⟩ ⟨0, 0⟩ ⟨0, 2⟩ =
      amended_perpendicular_distance ⟨1, 0⟩ ⟨0, 0⟩ ⟨0, 2⟩ := by
  have hnlt : ¬ line_len_deg ⟨0, 0⟩ ⟨0, 2⟩ < 1e-10 := by
    rw [line_len_example]
    norm_num
  exact ⟨hnlt, C4_amended_conversion ⟨1, 0⟩ ⟨0, 0⟩ ⟨0, 2⟩ hnlt⟩

end RunSousBpm
